import Mathlib

/-!
Shallow embedding of the Raja-Mantri-Chor-Sipahi room service
(source: Problem 2/main.py).  The in-memory store is a pair of
insertion-ordered association lists mirroring the two module-level
Python dicts, and every request handler becomes a pure function from
the store to an updated store together with an outcome.  An unhandled
Python exception (AttributeError on a None dereference, KeyError on a
missing dict key) is modelled by the error value ApiError.crash, kept
distinct from the three raised HTTPException classes.
-/

/-- One player record (class Player): id, display name, optional role,
per-round points. -/
structure Player where
  id : String
  name : String
  role : Option String := none
  points : Int := 0
deriving Repr, DecidableEq

/-- One room record (class Room). -/
structure Room where
  id : String
  players : List Player := []
  waitlist : List Player := []
  roles_assigned : Bool := false
  mantri_guess : Option String := none
  round_complete : Bool := false
deriving Repr, DecidableEq

/-- A room's cumulative score table: player id to cumulative score,
in insertion order (a Python dict). -/
abbrev ScoreMap := List (String × Int)

/-- The module-level mutable state: rooms and player_scores dicts. -/
structure ServerState where
  rooms : List (String × Room) := []
  player_scores : List (String × ScoreMap) := []
deriving Repr, DecidableEq

/-- Python dict lookup d[k] (first binding wins; keys are unique in
every reachable state). -/
def dictLookup {α : Type} (k : String) : List (String × α) → Option α
  | [] => none
  | kv :: rest => if kv.1 = k then some kv.2 else dictLookup k rest

/-- Python dict assignment d[k] = v: replaces the binding in place when
the key exists, appends a new binding otherwise. -/
def dictSet {α : Type} (k : String) (v : α) : List (String × α) → List (String × α)
  | [] => [(k, v)]
  | kv :: rest => if kv.1 = k then (k, v) :: rest else kv :: dictSet k v rest

/-- next((p for p in players if p.id == pid), None) -/
def findPlayer (pid : String) : List Player → Option Player
  | [] => none
  | p :: rest => if p.id = pid then some p else findPlayer pid rest

/-- next((p for p in players if p.role == r), None) -/
def findByRole (r : String) : List Player → Option Player
  | [] => none
  | p :: rest => if p.role = some r then some p else findByRole r rest

/-- ROLE_POINTS = {"Raja": 1000, "Mantri": 800, "Chor": 0, "Sipahi": 500} -/
def ROLE_POINTS : List (String × Int) :=
  [("Raja", 1000), ("Mantri", 800), ("Chor", 0), ("Sipahi", 500)]

/-- ROLES = ["Raja", "Mantri", "Chor", "Sipahi"] -/
def ROLES : List String := ["Raja", "Mantri", "Chor", "Sipahi"]

/-- ROLE_POINTS[player.role]: a KeyError (role unset, or not one of the
four keys) yields none. -/
def rolePoints (r : Option String) : Option Int :=
  match r with
  | none => none
  | some s => dictLookup s ROLE_POINTS

/-- The error outcomes a handler can produce: the three raised
HTTPException kinds (404, 400, 403) plus crash for an unhandled Python
exception. -/
inductive ApiError where
  | notFound (detail : String)
  | invalidState (detail : String)
  | forbidden (detail : String)
  | crash
deriving Repr, DecidableEq

/-- Whether a join landed a player in the active roster or the waitlist. -/
inductive Placement where
  | joined
  | waitlisted
deriving Repr, DecidableEq

/-- One element of the result list returned by get_result. -/
structure ResultEntry where
  name : String
  role : Option String
  points : Int
deriving Repr, DecidableEq

/-- POST /rooms/create — create_room.  The two fresh uuid4 strings are
passed in as parameters. -/
def create_room (room_id player_id player_name : String) (s : ServerState) :
    ServerState × Except ApiError (String × String) :=
  let player : Player := { id := player_id, name := player_name }
  ({ rooms := dictSet room_id { id := room_id, players := [player] } s.rooms,
     player_scores := dictSet room_id [(player_id, (0 : Int))] s.player_scores },
   Except.ok (room_id, player_id))

/-- POST /rooms/join — join_room.  The fresh uuid4 player id is a
parameter.  The Python code appends to room.players before touching
player_scores, so a KeyError on player_scores[room_id] (impossible in a
reachable state) would leave the roster already extended; the crash
branch keeps those earlier mutations. -/
def join_room (room_id player_id player_name : String) (s : ServerState) :
    ServerState × Except ApiError (String × Placement) :=
  match dictLookup room_id s.rooms with
  | none => (s, Except.error (ApiError.notFound "Room not found"))
  | some room =>
    let player : Player := { id := player_id, name := player_name }
    if room.players.length < 4 then
      let room1 := { room with players := room.players ++ [player] }
      let s1 := { s with rooms := dictSet room_id room1 s.rooms }
      match dictLookup room_id s.player_scores with
      | none => (s1, Except.error ApiError.crash)
      | some scores =>
        let scores1 := dictSet room_id (dictSet player_id 0 scores) s.player_scores
        ({ s1 with player_scores := scores1 }, Except.ok (player_id, Placement.joined))
    else
      let room1 := { room with waitlist := room.waitlist ++ [player] }
      ({ s with rooms := dictSet room_id room1 s.rooms },
       Except.ok (player_id, Placement.waitlisted))

/-- One row of the GET /rooms summary. -/
structure RoomSummary where
  room_id : String
  player_count : Nat
  waitlist_count : Nat
  roles_assigned : Bool
  round_complete : Bool
deriving Repr, DecidableEq

/-- GET /rooms — get_rooms (read-only). -/
def get_rooms (s : ServerState) : ServerState × Except ApiError (List RoomSummary) :=
  (s, Except.ok (s.rooms.map (fun kv =>
    { room_id := kv.1, player_count := kv.2.players.length,
      waitlist_count := kv.2.waitlist.length,
      roles_assigned := kv.2.roles_assigned,
      round_complete := kv.2.round_complete })))

/-- GET /rooms/players/{room_id} — get_players (read-only). -/
def get_players (room_id : String) (s : ServerState) :
    ServerState × Except ApiError (List (String × String)) :=
  match dictLookup room_id s.rooms with
  | none => (s, Except.error (ApiError.notFound "Room not found"))
  | some room => (s, Except.ok (room.players.map (fun p => (p.id, p.name))))

/-- for i, player in enumerate(room.players): player.role = roles[i].
Consumes the shuffled role list positionally; running out of roles
(IndexError, impossible with 4 players and 4 roles) yields none. -/
def assignList (roles : List String) (players : List Player) : Option (List Player) :=
  match players, roles with
  | [], _ => some []
  | p :: ps, r :: rs => (assignList rs ps).map (fun ps2 => { p with role := some r } :: ps2)
  | _ :: _, [] => none

/-- POST /rooms/assign/{room_id} — assign_roles.  random.shuffle is
modelled by passing the shuffled copy of ROLES as a parameter. -/
def assign_roles (room_id : String) (shuffled : List String) (s : ServerState) :
    ServerState × Except ApiError String :=
  match dictLookup room_id s.rooms with
  | none => (s, Except.error (ApiError.notFound "Room not found"))
  | some room =>
    if room.players.length < 4 then
      (s, Except.error (ApiError.invalidState "Need 4 players to assign roles"))
    else
      match assignList shuffled room.players with
      | none => (s, Except.error ApiError.crash)
      | some players2 =>
        let room1 := { room with players := players2, roles_assigned := true }
        ({ s with rooms := dictSet room_id room1 s.rooms }, Except.ok "Roles assigned")

/-- POST /rooms/reset/{room_id} — reset_round. -/
def reset_round (room_id : String) (s : ServerState) :
    ServerState × Except ApiError String :=
  match dictLookup room_id s.rooms with
  | none => (s, Except.error (ApiError.notFound "Room not found"))
  | some room =>
    let players2 := room.players.map (fun p => { p with role := none, points := 0 })
    let room1 := { room with players := players2, roles_assigned := false,
                             mantri_guess := none, round_complete := false }
    ({ s with rooms := dictSet room_id room1 s.rooms },
     Except.ok "Room reset. Ready to assign roles.")

/-- GET /role/me/{room_id}/{player_id} — get_my_role (read-only). -/
def get_my_role (room_id player_id : String) (s : ServerState) :
    ServerState × Except ApiError (Option String) :=
  match dictLookup room_id s.rooms with
  | none => (s, Except.error (ApiError.notFound "Room not found"))
  | some room =>
    match findPlayer player_id room.players with
    | none => (s, Except.error (ApiError.notFound "Player not found"))
    | some player => (s, Except.ok player.role)

/-- POST /guess/{room_id} — submit_guess.  "if not mantri or mantri.role
!= 'Mantri'" raises 403. -/
def submit_guess (room_id guessed_player_id mantri_id : String) (s : ServerState) :
    ServerState × Except ApiError String :=
  match dictLookup room_id s.rooms with
  | none => (s, Except.error (ApiError.notFound "Room not found"))
  | some room =>
    match findPlayer mantri_id room.players with
    | none => (s, Except.error (ApiError.forbidden "Only Mantri can guess"))
    | some mantri =>
      if mantri.role = some "Mantri" then
        let room1 := { room with mantri_guess := some guessed_player_id }
        ({ s with rooms := dictSet room_id room1 s.rooms }, Except.ok "Guess submitted")
      else (s, Except.error (ApiError.forbidden "Only Mantri can guess"))

/-- Output of the scoring loop in get_result: the players walked so far
(points overwritten), the score table so far, the result rows so far,
and whether an unhandled exception fired.  On a crash the loop stops,
keeping the mutations already performed, exactly as the Python loop
would. -/
structure LoopOut where
  players : List Player
  scores : List (String × ScoreMap)
  entries : List ResultEntry
  crashed : Bool
deriving Repr, DecidableEq

/-- The body of "for player in room.players" in get_result.  Per player:
points = ROLE_POINTS[player.role] (KeyError when the role is unset);
then the guessed_player.id == chor.id comparison (AttributeError when
either lookup produced no player); the first branch is literally "pass"
in the source, so it keeps the base points; the second gives the Chor
ROLE_POINTS["Mantri"] + ROLE_POINTS["Sipahi"] = 1300; then
player.points = points and player_scores[room_id][player.id] += points
(KeyError when either key is missing). -/
def resultLoop (guessed chor : Option Player) (room_id : String)
    (scores : List (String × ScoreMap)) : List Player → LoopOut
  | [] => { players := [], scores := scores, entries := [], crashed := false }
  | p :: rest =>
    match rolePoints p.role with
    | none => { players := p :: rest, scores := scores, entries := [], crashed := true }
    | some base =>
      match guessed, chor with
      | some g, some c =>
        let points :=
          if g.id = c.id ∧ (p.role = some "Mantri" ∨ p.role = some "Sipahi") then
            base
          else if g.id ≠ c.id ∧ p.role = some "Chor" then
            800 + 500
          else base
        match dictLookup room_id scores with
        | none => { players := p :: rest, scores := scores, entries := [], crashed := true }
        | some sm =>
          match dictLookup p.id sm with
          | none => { players := p :: rest, scores := scores, entries := [], crashed := true }
          | some cur =>
            let scores2 := dictSet room_id (dictSet p.id (cur + points) sm) scores
            let out := resultLoop guessed chor room_id scores2 rest
            { players := { p with points := points } :: out.players,
              scores := out.scores,
              entries := { name := p.name, role := p.role, points := points } :: out.entries,
              crashed := out.crashed }
      | _, _ => { players := p :: rest, scores := scores, entries := [], crashed := true }

/-- GET /result/{room_id} — get_result.  "if not room.mantri_guess"
treats both None and the empty string as no pending guess (Python
truthiness).  The final "correct": guessed_player.id == chor.id is an
AttributeError when the roster is empty and a lookup failed. -/
def get_result (room_id : String) (s : ServerState) :
    ServerState × Except ApiError (List ResultEntry × Bool) :=
  match dictLookup room_id s.rooms with
  | none => (s, Except.error (ApiError.notFound "Room not found"))
  | some room =>
    if room.mantri_guess = none ∨ room.mantri_guess = some "" then
      (s, Except.error (ApiError.invalidState "Guess not submitted yet"))
    else
      let guessed :=
        match room.mantri_guess with
        | none => none
        | some g => findPlayer g room.players
      let chor := findByRole "Chor" room.players
      let out := resultLoop guessed chor room_id s.player_scores room.players
      let crashRoom := { room with players := out.players }
      let crashState : ServerState :=
        { rooms := dictSet room_id crashRoom s.rooms, player_scores := out.scores }
      if out.crashed then
        (crashState, Except.error ApiError.crash)
      else
        match guessed, chor with
        | some g, some c =>
          let doneRoom := { room with players := out.players, round_complete := true }
          ({ rooms := dictSet room_id doneRoom s.rooms, player_scores := out.scores },
           Except.ok (out.entries, g.id = c.id))
        | _, _ => (crashState, Except.error ApiError.crash)

/-- Stable insertion into a descending-sorted score list: x goes before
the first element it strictly beats, i.e. after every element with an
equal or higher score, matching Python's stable sorted(..., reverse=True). -/
def sortDescInsert (x : String × Int) : List (String × Int) → List (String × Int)
  | [] => [x]
  | y :: ys => if x.2 ≥ y.2 then x :: y :: ys else y :: sortDescInsert x ys

/-- sorted(scores.items(), key=lambda x: x[1], reverse=True) -/
def sortDesc : List (String × Int) → List (String × Int)
  | [] => []
  | x :: xs => sortDescInsert x (sortDesc xs)

/-- The name-resolution loop of get_leaderboard: each (player_id, score)
pair becomes (player.name, score) via a roster lookup; player.name on a
failed lookup is an AttributeError, modelled as none. -/
def leaderboardRows (players : List Player) :
    List (String × Int) → Option (List (String × Int))
  | [] => some []
  | kv :: rest =>
    match findPlayer kv.1 players with
    | none => none
    | some p => (leaderboardRows players rest).map (fun l => (p.name, kv.2) :: l)

/-- GET /leaderboard/{room_id} — get_leaderboard (read-only).
player_scores[room_id] is a KeyError (crash) when rooms has the id but
player_scores does not; unreachable in practice. -/
def get_leaderboard (room_id : String) (s : ServerState) :
    ServerState × Except ApiError (List (String × Int)) :=
  match dictLookup room_id s.rooms with
  | none => (s, Except.error (ApiError.notFound "Room not found"))
  | some room =>
    match dictLookup room_id s.player_scores with
    | none => (s, Except.error ApiError.crash)
    | some scores =>
      match leaderboardRows room.players (sortDesc scores) with
      | none => (s, Except.error ApiError.crash)
      | some rows => (s, Except.ok rows)

/-- The cumulative score of player pid in room rid as the leaderboard
would read it. -/
def scoreEntry (s : ServerState) (rid pid : String) : Option Int :=
  match dictLookup rid s.player_scores with
  | none => none
  | some sm => dictLookup pid sm

/-- One request to the service, with every fresh uuid4 and the shuffle
outcome made explicit. -/
inductive Op where
  | create (room_id player_id name : String)
  | join (room_id player_id name : String)
  | listRooms
  | listPlayers (room_id : String)
  | assign (room_id : String) (shuffled : List String)
  | reset (room_id : String)
  | myRole (room_id player_id : String)
  | guess (room_id guessed_player_id mantri_id : String)
  | result (room_id : String)
  | leaderboard (room_id : String)

/-- The state reached after serving one request (the response is
discarded). -/
def applyOp (op : Op) (s : ServerState) : ServerState :=
  match op with
  | Op.create rid pid nm => (create_room rid pid nm s).1
  | Op.join rid pid nm => (join_room rid pid nm s).1
  | Op.listRooms => (get_rooms s).1
  | Op.listPlayers rid => (get_players rid s).1
  | Op.assign rid sh => (assign_roles rid sh s).1
  | Op.reset rid => (reset_round rid s).1
  | Op.myRole rid pid => (get_my_role rid pid s).1
  | Op.guess rid gid mid => (submit_guess rid gid mid s).1
  | Op.result rid => (get_result rid s).1
  | Op.leaderboard rid => (get_leaderboard rid s).1

/-- The uuid4 freshness a real execution guarantees for the ids an
operation mints: a created room id is new to both dicts, and a joining
player id is new to its room's score table and roster. -/
def opFresh (op : Op) (s : ServerState) : Prop :=
  match op with
  | Op.create rid pid _ =>
      dictLookup rid s.rooms = none ∧ dictLookup rid s.player_scores = none ∧
      pid ≠ rid
  | Op.join rid pid _ => scoreEntry s rid pid = none
  | Op.assign _ shuffled => shuffled.Perm ROLES
  | _ => True

/-- One observable transition of the service. -/
inductive Step : ServerState → ServerState → Prop where
  | mk (op : Op) (s : ServerState) (h : opFresh op s) : Step s (applyOp op s)

/-- Zero or more transitions. -/
inductive Steps : ServerState → ServerState → Prop where
  | refl (s : ServerState) : Steps s s
  | tail {s t u : ServerState} : Steps s t → Step t u → Steps s u

/-- The empty store the process boots with. -/
def initState : ServerState := {}

/-- A state some sequence of requests can produce from the empty store. -/
def Reachable (s : ServerState) : Prop := Steps initState s

/-- Concrete witness run: one create and three joins filling room "w". -/
def wStep1 : ServerState := applyOp (Op.create "w" "pa" "A") initState

/-- Witness run after the second player joins. -/
def wStep2 : ServerState := applyOp (Op.join "w" "pb" "B") wStep1

/-- Witness run after the third player joins. -/
def wStep3 : ServerState := applyOp (Op.join "w" "pc" "C") wStep2

/-- Witness run after the fourth player joins: a full room. -/
def wState : ServerState := applyOp (Op.join "w" "pd" "D") wStep3

/-- The full room the witness run produces. -/
def wRoom : Room :=
  { id := "w",
    players := [ { id := "pa", name := "A" }, { id := "pb", name := "B" },
                 { id := "pc", name := "C" }, { id := "pd", name := "D" } ] }

/-- The per-round points the scoring loop computes for player p when the
guessed-player lookup produced g and the Chor lookup produced c: the
base value of p's role, except that a wrong guess pays the Chor 1300.
(The correct-guess branch of the source is "pass", so it also keeps the
base value.) -/
def loopPts (g c p : Player) : Int :=
  let base := (rolePoints p.role).getD 0
  if g.id = c.id ∧ (p.role = some "Mantri" ∨ p.role = some "Sipahi") then base
  else if g.id ≠ c.id ∧ p.role = some "Chor" then 800 + 500
  else base

/-- player.points = points, as the loop leaves the player record. -/
def updP (g c p : Player) : Player := { p with points := loopPts g c p }

/-- The result row the loop appends for player p. -/
def entryOf (g c p : Player) : ResultEntry :=
  { name := p.name, role := p.role, points := loopPts g c p }

/-- Total amount one pass of the scoring loop adds to the cumulative
score keyed q (the sum over roster entries carrying that id). -/
def bumpSum (g c : Player) (q : String) : List Player → Int
  | [] => 0
  | p :: ps => (if p.id = q then loopPts g c p else 0) + bumpSum g c q ps

/-- Modelled from the amended claim C1: per-round points as the code
actually computes them — on a wrong guess the Chor receives 1300 and
everyone else keeps the base role value; on a correct guess every
player keeps the base role value (Raja 1000, Mantri 800, Chor 0,
Sipahi 500). -/
def amendedRoundPoints (correct : Bool) (role : Option String) : Int :=
  if correct = false ∧ role = some "Chor" then 1300
  else if role = some "Raja" then 1000
  else if role = some "Mantri" then 800
  else if role = some "Sipahi" then 500
  else 0

/-- A concrete four-player roster with roles assigned, used by the
counterexample and witness theorems. -/
def cPlayers : List Player :=
  [ { id := "pa", name := "A", role := some "Raja" },
    { id := "pb", name := "B", role := some "Mantri" },
    { id := "pc", name := "C", role := some "Chor" },
    { id := "pd", name := "D", role := some "Sipahi" } ]

/-- Fresh cumulative score table for the concrete roster. -/
def cScores : ScoreMap := [("pa", 0), ("pb", 0), ("pc", 0), ("pd", 0)]

/-- A one-room store in the guessed state, with the pending guess a
parameter. -/
def cState (g : String) : ServerState :=
  { rooms := [("r", { id := "r", players := cPlayers, roles_assigned := true,
                      mantri_guess := some g })],
    player_scores := [("r", cScores)] }

/-- The result rows the code returns on the concrete correct guess. -/
def cCorrectRows : List ResultEntry :=
  [ { name := "A", role := some "Raja", points := 1000 },
    { name := "B", role := some "Mantri", points := 800 },
    { name := "C", role := some "Chor", points := 0 },
    { name := "D", role := some "Sipahi", points := 500 } ]

/-- The result rows the code returns on the concrete wrong guess. -/
def cWrongRows : List ResultEntry :=
  [ { name := "A", role := some "Raja", points := 1000 },
    { name := "B", role := some "Mantri", points := 800 },
    { name := "C", role := some "Chor", points := 1300 },
    { name := "D", role := some "Sipahi", points := 500 } ]

/-- The structural invariant every reachable store satisfies: a known
room has at most 4 active players and a score table of its own. -/
def StoreInv (s : ServerState) : Prop :=
  ∀ rid room, dictLookup rid s.rooms = some room →
    room.players.length ≤ 4 ∧ dictLookup rid s.player_scores ≠ none

lemma dictLookup_dictSet_self {α : Type} (k : String) (v : α) (d : List (String × α)) :
    dictLookup k (dictSet k v d) = some v := by
  induction d with
  | nil => simp [dictSet, dictLookup]
  | cons kv rest ih =>
    by_cases h : kv.1 = k
    · simp [dictSet, dictLookup, h]
    · simp [dictSet, dictLookup, h, ih]

lemma dictLookup_dictSet_ne {α : Type} {k k' : String} (h : k' ≠ k) (v : α)
    (d : List (String × α)) :
    dictLookup k' (dictSet k v d) = dictLookup k' d := by
  induction d with
  | nil =>
    have : ¬ k = k' := fun hh => h hh.symm
    simp [dictSet, dictLookup, this]
  | cons kv rest ih =>
    by_cases hk : kv.1 = k
    · subst hk
      have : ¬ kv.1 = k' := fun hh => h (hh.symm.trans rfl)
      simp [dictSet, dictLookup, this]
    · simp [dictSet, dictLookup, hk, ih]

lemma dictLookup_dictSet_isSome {α : Type} {k q : String} {v : α}
    {d : List (String × α)} (h : dictLookup q d ≠ none) :
    dictLookup q (dictSet k v d) ≠ none := by
  by_cases hq : q = k
  · subst hq; simp [dictLookup_dictSet_self]
  · rw [dictLookup_dictSet_ne hq]; exact h

lemma findPlayer_some {pid : String} : ∀ {ps : List Player} {p : Player},
    findPlayer pid ps = some p → p ∈ ps ∧ p.id = pid := by
  intro ps
  induction ps with
  | nil => intro p h; simp [findPlayer] at h
  | cons q rest ih =>
    intro p h
    by_cases hq : q.id = pid
    · simp [findPlayer, hq] at h
      exact ⟨by simp [← h], by rw [← h]; exact hq⟩
    · simp [findPlayer, hq] at h
      obtain ⟨hmem, hid⟩ := ih h
      exact ⟨List.mem_cons_of_mem _ hmem, hid⟩

lemma findPlayer_isSome_of_mem {pid : String} : ∀ {ps : List Player} {p : Player},
    p ∈ ps → p.id = pid → ∃ q, findPlayer pid ps = some q := by
  intro ps
  induction ps with
  | nil => intro p h; simp at h
  | cons a rest ih =>
    intro p hmem hid
    by_cases ha : a.id = pid
    · exact ⟨a, by simp [findPlayer, ha]⟩
    · rcases List.mem_cons.mp hmem with rfl | hmem2
      · exact absurd hid ha
      · obtain ⟨q, hq⟩ := ih hmem2 hid
        exact ⟨q, by simp [findPlayer, ha, hq]⟩

lemma findPlayer_eq_none {pid : String} : ∀ {ps : List Player},
    (∀ p ∈ ps, p.id ≠ pid) → findPlayer pid ps = none := by
  intro ps
  induction ps with
  | nil => intro _; rfl
  | cons a rest ih =>
    intro h
    have ha : a.id ≠ pid := h a (List.mem_cons_self a rest)
    simp [findPlayer, ha]
    exact ih (fun p hp => h p (List.mem_cons_of_mem _ hp))

lemma findByRole_some {r : String} : ∀ {ps : List Player} {c : Player},
    findByRole r ps = some c → c ∈ ps ∧ c.role = some r := by
  intro ps
  induction ps with
  | nil => intro c h; simp [findByRole] at h
  | cons q rest ih =>
    intro c h
    by_cases hq : q.role = some r
    · simp [findByRole, hq] at h
      exact ⟨by simp [← h], by rw [← h]; exact hq⟩
    · simp [findByRole, hq] at h
      obtain ⟨hmem, hrole⟩ := ih h
      exact ⟨List.mem_cons_of_mem _ hmem, hrole⟩

lemma findByRole_isSome_of_mem {r : String} : ∀ {ps : List Player} {p : Player},
    p ∈ ps → p.role = some r → ∃ c, findByRole r ps = some c := by
  intro ps
  induction ps with
  | nil => intro p h; simp at h
  | cons a rest ih =>
    intro p hmem hrole
    by_cases ha : a.role = some r
    · exact ⟨a, by simp [findByRole, ha]⟩
    · rcases List.mem_cons.mp hmem with rfl | hmem2
      · exact absurd hrole ha
      · obtain ⟨c, hc⟩ := ih hmem2 hrole
        exact ⟨c, by simp [findByRole, ha, hc]⟩

lemma rolePoints_nonneg {r : Option String} {b : Int} (h : rolePoints r = some b) :
    0 ≤ b := by
  cases r with
  | none => simp [rolePoints] at h
  | some s =>
    by_cases h1 : "Raja" = s
    · subst h1; simp [rolePoints, ROLE_POINTS, dictLookup] at h; omega
    · by_cases h2 : "Mantri" = s
      · subst h2; simp [rolePoints, ROLE_POINTS, dictLookup] at h; omega
      · by_cases h3 : "Chor" = s
        · subst h3; simp [rolePoints, ROLE_POINTS, dictLookup] at h; omega
        · by_cases h4 : "Sipahi" = s
          · subst h4; simp [rolePoints, ROLE_POINTS, dictLookup] at h; omega
          · simp [rolePoints, ROLE_POINTS, dictLookup, h1, h2, h3, h4] at h

lemma resultLoop_ok (g c : Player) (rid : String) :
    ∀ (ps : List Player) (scores : List (String × ScoreMap)) (sm : ScoreMap),
    dictLookup rid scores = some sm →
    (∀ p ∈ ps, rolePoints p.role ≠ none) →
    (∀ p ∈ ps, dictLookup p.id sm ≠ none) →
    (resultLoop (some g) (some c) rid scores ps).players = ps.map (updP g c) ∧
    (resultLoop (some g) (some c) rid scores ps).entries = ps.map (entryOf g c) ∧
    (resultLoop (some g) (some c) rid scores ps).crashed = false ∧
    (∀ r', r' ≠ rid →
      dictLookup r' (resultLoop (some g) (some c) rid scores ps).scores =
        dictLookup r' scores) ∧
    ∃ sm2, dictLookup rid (resultLoop (some g) (some c) rid scores ps).scores = some sm2 ∧
      ∀ q v, dictLookup q sm = some v → dictLookup q sm2 = some (v + bumpSum g c q ps) := by
  intro ps
  induction ps with
  | nil =>
    intro scores sm hsm _ _
    refine ⟨rfl, rfl, rfl, fun r' _ => rfl, sm, hsm, ?_⟩
    intro q v hv
    simpa [bumpSum] using hv
  | cons p rest ih =>
    intro scores sm hsm hroles hpres
    obtain ⟨base, hb⟩ := Option.ne_none_iff_exists'.mp
      (hroles p (List.mem_cons_self p rest))
    obtain ⟨cur, hcur⟩ := Option.ne_none_iff_exists'.mp
      (hpres p (List.mem_cons_self p rest))
    have hpts : loopPts g c p =
        (if g.id = c.id ∧ (p.role = some "Mantri" ∨ p.role = some "Sipahi") then base
         else if g.id ≠ c.id ∧ p.role = some "Chor" then 800 + 500 else base) := by
      simp [loopPts, hb]
    have hstep : resultLoop (some g) (some c) rid scores (p :: rest) =
        { players := updP g c p ::
            (resultLoop (some g) (some c) rid
              (dictSet rid (dictSet p.id (cur + loopPts g c p) sm) scores) rest).players,
          scores := (resultLoop (some g) (some c) rid
              (dictSet rid (dictSet p.id (cur + loopPts g c p) sm) scores) rest).scores,
          entries := entryOf g c p ::
            (resultLoop (some g) (some c) rid
              (dictSet rid (dictSet p.id (cur + loopPts g c p) sm) scores) rest).entries,
          crashed := (resultLoop (some g) (some c) rid
              (dictSet rid (dictSet p.id (cur + loopPts g c p) sm) scores) rest).crashed } := by
      conv_lhs => rw [resultLoop]
      simp only [hb, hsm, hcur, updP, entryOf, loopPts, Option.getD_some]
    set sm1 : ScoreMap := dictSet p.id (cur + loopPts g c p) sm with hsm1
    set scores2 := dictSet rid sm1 scores with hscores2
    have hsm2 : dictLookup rid scores2 = some sm1 := dictLookup_dictSet_self rid sm1 scores
    have hroles2 : ∀ p' ∈ rest, rolePoints p'.role ≠ none :=
      fun p' hp' => hroles p' (List.mem_cons_of_mem _ hp')
    have hpres2 : ∀ p' ∈ rest, dictLookup p'.id sm1 ≠ none := by
      intro p' hp'
      exact dictLookup_dictSet_isSome (hpres p' (List.mem_cons_of_mem _ hp'))
    obtain ⟨hpl, hent, hcr, hoth, sm3, hsm3, hadd⟩ := ih scores2 sm1 hsm2 hroles2 hpres2
    rw [hstep]
    refine ⟨by simp [hpl], by simp [hent], by simpa using hcr, ?_, sm3, hsm3, ?_⟩
    · intro r' hr'
      have := hoth r' hr'
      simpa [this] using dictLookup_dictSet_ne hr' sm1 scores
    · intro q v hv
      by_cases hq : q = p.id
      · have hveq : v = cur := by
          rw [hq, hcur] at hv
          exact (Option.some_inj.mp hv).symm
        have hlk : dictLookup q sm1 = some (cur + loopPts g c p) := by
          rw [hsm1, hq]
          exact dictLookup_dictSet_self _ _ sm
        have h3 := hadd q (cur + loopPts g c p) hlk
        rw [h3, hveq]
        have hpq : p.id = q := hq.symm
        simp only [bumpSum, hpq, if_pos]
        congr 1
        ring
      · have hlk : dictLookup q sm1 = some v := by
          rw [hsm1, dictLookup_dictSet_ne hq]
          exact hv
        have h3 := hadd q v hlk
        rw [h3]
        have hne : ¬ p.id = q := fun hh => hq hh.symm
        simp [bumpSum, hne]

lemma resultLoop_crashed_of_role_none (g c : Player) (rid : String) :
    ∀ (ps : List Player) (scores : List (String × ScoreMap)),
    (∃ p ∈ ps, rolePoints p.role = none) →
    (resultLoop (some g) (some c) rid scores ps).crashed = true := by
  intro ps
  induction ps with
  | nil => intro scores h; simp at h
  | cons p rest ih =>
    intro scores h
    cases hb : rolePoints p.role with
    | none => simp [resultLoop, hb]
    | some base =>
      obtain ⟨p', hp', hrole⟩ := h
      rcases List.mem_cons.mp hp' with rfl | hmem
      · rw [hb] at hrole; cases hrole
      · cases hsm : dictLookup rid scores with
        | none => simp [resultLoop, hb, hsm]
        | some sm =>
          cases hcur : dictLookup p.id sm with
          | none => simp [resultLoop, hb, hsm, hcur]
          | some cur =>
            simp only [resultLoop, hb, hsm, hcur]
            exact ih _ ⟨p', hmem, hrole⟩

lemma resultLoop_ok_inv (g c : Player) (rid : String) :
    ∀ (ps : List Player) (scores : List (String × ScoreMap)),
    (resultLoop (some g) (some c) rid scores ps).crashed = false →
    (∀ p ∈ ps, rolePoints p.role ≠ none) ∧
    (ps = [] ∨ ∃ sm, dictLookup rid scores = some sm ∧
      ∀ p ∈ ps, dictLookup p.id sm ≠ none) := by
  intro ps
  induction ps with
  | nil => intro scores _; exact ⟨by simp, Or.inl rfl⟩
  | cons p rest ih =>
    intro scores hcr
    cases hb : rolePoints p.role with
    | none => rw [resultLoop, hb] at hcr; cases hcr
    | some base =>
      cases hsm : dictLookup rid scores with
      | none => simp [resultLoop, hb, hsm] at hcr
      | some sm =>
        cases hcur : dictLookup p.id sm with
        | none => simp [resultLoop, hb, hsm, hcur] at hcr
        | some cur =>
          simp only [resultLoop, hb, hsm, hcur] at hcr
          obtain ⟨hroles, hrest⟩ := ih _ hcr
          refine ⟨?_, Or.inr ⟨sm, rfl, ?_⟩⟩
          · intro p' hp'
            rcases List.mem_cons.mp hp' with rfl | hmem
            · rw [hb]; exact Option.some_ne_none base
            · exact hroles p' hmem
          · intro p' hp'
            rcases List.mem_cons.mp hp' with rfl | hmem
            · rw [hcur]; exact Option.some_ne_none cur
            · rcases hrest with hnil | ⟨sm2, hsm2, hpres2⟩
              · subst hnil; simp at hmem
              · rw [dictLookup_dictSet_self] at hsm2
                have h4 := hpres2 p' hmem
                rw [← Option.some_inj.mp hsm2] at h4
                by_cases hpq : p'.id = p.id
                · rw [hpq, hcur]; exact Option.some_ne_none cur
                · rw [dictLookup_dictSet_ne hpq] at h4
                  exact h4

lemma get_result_spec (s : ServerState) (rid : String) (room : Room) (gid : String)
    (g c : Player) (sm : ScoreMap)
    (hroom : dictLookup rid s.rooms = some room)
    (hguess : room.mantri_guess = some gid) (hgid : gid ≠ "")
    (hg : findPlayer gid room.players = some g)
    (hc : findByRole "Chor" room.players = some c)
    (hsm : dictLookup rid s.player_scores = some sm)
    (hroles : ∀ p ∈ room.players, rolePoints p.role ≠ none)
    (hpres : ∀ p ∈ room.players, dictLookup p.id sm ≠ none) :
    (get_result rid s).2 =
      Except.ok (room.players.map (entryOf g c), decide (g.id = c.id)) ∧
    (get_result rid s).1.rooms =
      dictSet rid { room with players := room.players.map (updP g c), round_complete := true } s.rooms ∧
    (∀ r', r' ≠ rid →
      dictLookup r' (get_result rid s).1.player_scores =
        dictLookup r' s.player_scores) ∧
    ∃ sm2, dictLookup rid (get_result rid s).1.player_scores = some sm2 ∧
      ∀ q v, dictLookup q sm = some v →
        dictLookup q sm2 = some (v + bumpSum g c q room.players) := by
  obtain ⟨hpl, hent, hcr, hoth, sm2, hsm2, hadd⟩ :=
    resultLoop_ok g c rid room.players s.player_scores sm hsm hroles hpres
  set out := resultLoop (some g) (some c) rid s.player_scores room.players with hout
  have hres : get_result rid s =
      ({ rooms := dictSet rid { room with players := out.players, round_complete := true } s.rooms, player_scores := out.scores },
       Except.ok (out.entries, decide (g.id = c.id))) := by
    conv_lhs => rw [get_result]
    simp only [hroom, hguess, hg, hc, ← hout, hcr]
    rw [if_neg (by simp [hgid])]
    simp only [if_neg (by simp : ¬ (false = true))]
  rw [hres]
  exact ⟨by rw [hent], by rw [hpl], fun r' hr' => hoth r' hr', sm2, hsm2, hadd⟩

lemma get_result_ok_inv {s s1 : ServerState} {rid : String}
    {entries : List ResultEntry} {flag : Bool}
    (h : get_result rid s = (s1, Except.ok (entries, flag))) :
    ∃ room gid g c, dictLookup rid s.rooms = some room ∧
      room.mantri_guess = some gid ∧ gid ≠ "" ∧
      findPlayer gid room.players = some g ∧
      findByRole "Chor" room.players = some c ∧
      (resultLoop (some g) (some c) rid s.player_scores room.players).crashed = false := by
  rw [get_result] at h
  cases hroom : dictLookup rid s.rooms with
  | none => simp only [hroom] at h; simp at h
  | some room =>
    simp only [hroom] at h
    by_cases hguard : room.mantri_guess = none ∨ room.mantri_guess = some ""
    · rw [if_pos hguard] at h; simp at h
    · rw [if_neg hguard] at h
      push_neg at hguard
      obtain ⟨hg1, hg2⟩ := hguard
      cases hmg : room.mantri_guess with
      | none => exact absurd hmg hg1
      | some gid =>
        have hgid : gid ≠ "" := by
          intro hh
          rw [hmg, hh] at hg2
          exact hg2 rfl
        simp only [hmg] at h
        cases hg : findPlayer gid room.players with
        | none =>
          simp only [hg] at h
          rcases hcr : (resultLoop none (findByRole "Chor" room.players) rid
              s.player_scores room.players).crashed with _ | _
          · simp only [hcr] at h; simp at h
          · simp only [hcr] at h; simp at h
        | some g =>
          simp only [hg] at h
          cases hc : findByRole "Chor" room.players with
          | none =>
            simp only [hc] at h
            rcases hcr : (resultLoop (some g) none rid
                s.player_scores room.players).crashed with _ | _
            · simp only [hcr] at h; simp at h
            · simp only [hcr] at h; simp at h
          | some c =>
            simp only [hc] at h
            rcases hcr : (resultLoop (some g) (some c) rid
                s.player_scores room.players).crashed with _ | _
            · exact ⟨room, gid, g, c, rfl, hmg, hgid, hg, hc, hcr⟩
            · simp only [hcr] at h; simp at h

lemma mem_eq_of_map_nodup {β : Type} (f : Player → β) :
    ∀ (l : List Player), (l.map f).Nodup →
    ∀ p ∈ l, ∀ q ∈ l, f p = f q → p = q := by
  intro l
  induction l with
  | nil => intro _ p hp; simp at hp
  | cons a rest ih =>
    intro hnd p hp q hq hfq
    simp only [List.map_cons, List.nodup_cons] at hnd
    obtain ⟨hna, hnd2⟩ := hnd
    rcases List.mem_cons.mp hp with rfl | hp2
    · rcases List.mem_cons.mp hq with rfl | hq2
      · rfl
      · exfalso
        apply hna
        rw [hfq]
        exact List.mem_map_of_mem f hq2
    · rcases List.mem_cons.mp hq with rfl | hq2
      · exfalso
        apply hna
        rw [← hfq]
        exact List.mem_map_of_mem f hp2
      · exact ih hnd2 p hp2 q hq2 hfq

lemma findPlayer_self_of_nodup :
    ∀ {ps : List Player}, (ps.map Player.id).Nodup →
    ∀ {p : Player}, p ∈ ps → findPlayer p.id ps = some p := by
  intro ps
  induction ps with
  | nil => intro _ p hp; simp at hp
  | cons a rest ih =>
    intro hnd p hp
    simp only [List.map_cons, List.nodup_cons] at hnd
    obtain ⟨hna, hnd2⟩ := hnd
    rcases List.mem_cons.mp hp with rfl | hp2
    · simp [findPlayer]
    · have hne : a.id ≠ p.id := by
        intro hh
        apply hna
        rw [hh]
        exact List.mem_map_of_mem Player.id hp2
      simp [findPlayer, hne, ih hnd2 hp2]

lemma loopPts_eq_amended (g c p : Player) (r : String)
    (hr : p.role = some r) (hmem : r ∈ ROLES) :
    loopPts g c p = amendedRoundPoints (decide (g.id = c.id)) p.role := by
  simp only [ROLES, List.mem_cons, List.not_mem_nil, or_false] at hmem
  by_cases hgc : g.id = c.id <;>
    rcases hmem with rfl | rfl | rfl | rfl <;>
      simp [loopPts, amendedRoundPoints, rolePoints, ROLE_POINTS, dictLookup, hr, hgc]

lemma roles_perm_facts (players : List Player)
    (hperm : (players.map Player.role).Perm (ROLES.map some)) :
    (∀ p ∈ players, ∃ r, p.role = some r ∧ r ∈ ROLES) ∧
    (players.map Player.role).Nodup ∧
    ∃ ch ∈ players, ch.role = some "Chor" := by
  refine ⟨?_, ?_, ?_⟩
  · intro p hp
    have h1 : p.role ∈ players.map Player.role := List.mem_map_of_mem Player.role hp
    have h2 : p.role ∈ ROLES.map some := hperm.mem_iff.mp h1
    obtain ⟨r, hr, hre⟩ := List.mem_map.mp h2
    exact ⟨r, hre.symm, hr⟩
  · have : (ROLES.map some).Nodup := by decide
    exact hperm.nodup_iff.mpr this
  · have h1 : some "Chor" ∈ ROLES.map some := by decide
    have h2 : some "Chor" ∈ players.map Player.role := hperm.mem_iff.mpr h1
    obtain ⟨ch, hch, hre⟩ := List.mem_map.mp h2
    exact ⟨ch, hch, hre⟩

lemma rolePoints_isSome_of_ROLES {r : String} (h : r ∈ ROLES) :
    rolePoints (some r) ≠ none := by
  simp only [ROLES, List.mem_cons, List.not_mem_nil, or_false] at h
  rcases h with rfl | rfl | rfl | rfl <;> simp [rolePoints, ROLE_POINTS, dictLookup]

lemma good_round_spec (room : Room) (gid : String) (gp : Player)
    (hperm : (room.players.map Player.role).Perm (ROLES.map some))
    (hids : (room.players.map Player.id).Nodup)
    (hgp : gp ∈ room.players) (hgpid : gp.id = gid) :
    ∃ c, findByRole "Chor" room.players = some c ∧
      findPlayer gid room.players = some gp ∧
      decide (gp.id = c.id) = decide (gp.role = some "Chor") ∧
      (∀ p ∈ room.players,
        loopPts gp c p = amendedRoundPoints (decide (gp.role = some "Chor")) p.role) ∧
      (∀ p ∈ room.players, rolePoints p.role ≠ none) := by
  obtain ⟨hall, hrnodup, ch, hchmem, hchrole⟩ := roles_perm_facts room.players hperm
  obtain ⟨c, hc⟩ := findByRole_isSome_of_mem hchmem hchrole
  obtain ⟨hcmem, hcrole⟩ := findByRole_some hc
  have hfp : findPlayer gid room.players = some gp := by
    rw [← hgpid]
    exact findPlayer_self_of_nodup hids hgp
  have hiff : (gp.id = c.id) ↔ (gp.role = some "Chor") := by
    constructor
    · intro h
      have := mem_eq_of_map_nodup Player.id room.players hids gp hgp c hcmem h
      rw [this, hcrole]
    · intro h
      have := mem_eq_of_map_nodup Player.role room.players hrnodup gp hgp c hcmem
        (h.trans hcrole.symm)
      rw [this]
  have hdec : decide (gp.id = c.id) = decide (gp.role = some "Chor") :=
    decide_eq_decide.mpr hiff
  refine ⟨c, hc, hfp, hdec, ?_, ?_⟩
  · intro p hp
    obtain ⟨r, hr, hrmem⟩ := hall p hp
    rw [← hdec]
    exact loopPts_eq_amended gp c p r hr hrmem
  · intro p hp
    obtain ⟨r, hr, hrmem⟩ := hall p hp
    rw [hr]
    exact rolePoints_isSome_of_ROLES hrmem

/-- C1 (corrected): on the concrete correct guess (Mantri guesses the
Chor player "pc"), ComputeResult returns the flag true but pays Mantri
800 and Sipahi 500 — their base values, not the 0 the claim states —
because the correct-guess branch of the loop is literally "pass". -/
theorem C1_counterexample :
    (get_result "r" (cState "pc")).2 = Except.ok (cCorrectRows, true) ∧
    cCorrectRows.map ResultEntry.points = [1000, 800, 0, 500] :=
  ⟨rfl, rfl⟩

/-- C1 (amended): for every room with four active players holding
distinct roles (a permutation of the four role values), distinct ids,
and a pending non-empty guess naming an active player, ComputeResult
returns correctness flag true exactly when the guessed player holds
Chor, and writes per-round points that keep every player's base value
on a correct guess, while on a wrong guess the Chor player receives
1300 and everyone else keeps the base value; each player's points field
is overwritten with the same value. -/
theorem C1_computeresult_payouts (s : ServerState) (rid : String) (room : Room)
    (gid : String) (gp : Player) (sm : ScoreMap)
    (hroom : dictLookup rid s.rooms = some room)
    (hperm : (room.players.map Player.role).Perm (ROLES.map some))
    (hids : (room.players.map Player.id).Nodup)
    (hguess : room.mantri_guess = some gid) (hgid : gid ≠ "")
    (hgp : gp ∈ room.players) (hgpid : gp.id = gid)
    (hsm : dictLookup rid s.player_scores = some sm)
    (hpres : ∀ p ∈ room.players, dictLookup p.id sm ≠ none) :
    (get_result rid s).2 =
      Except.ok (room.players.map (fun p =>
          { name := p.name, role := p.role,
            points := amendedRoundPoints (decide (gp.role = some "Chor")) p.role }),
        decide (gp.role = some "Chor")) ∧
    ∃ room1, dictLookup rid (get_result rid s).1.rooms = some room1 ∧
      room1.players = room.players.map (fun p =>
        { p with points := amendedRoundPoints (decide (gp.role = some "Chor")) p.role }) := by
  obtain ⟨c, hc, hfp, hdec, hlp, hroles⟩ :=
    good_round_spec room gid gp hperm hids hgp hgpid
  obtain ⟨h2, h1rooms, _, _⟩ :=
    get_result_spec s rid room gid gp c sm hroom hguess hgid hfp hc hsm hroles hpres
  constructor
  · rw [h2, hdec]
    congr 1
    congr 1
    apply List.map_congr_left
    intro p hp
    simp [entryOf, hlp p hp]
  · refine ⟨_, by rw [h1rooms]; exact dictLookup_dictSet_self _ _ _, ?_⟩
    simp only
    apply List.map_congr_left
    intro p hp
    simp [updP, hlp p hp]

/-- C1 witness: the amended statement instantiated at the concrete
correct-guess room (guess = "pc", the Chor player). -/
theorem C1_computeresult_payouts_witness :
    (get_result "r" (cState "pc")).2 =
      Except.ok (cPlayers.map (fun p =>
          { name := p.name, role := p.role,
            points := amendedRoundPoints true p.role }), true) ∧
    ∃ room1, dictLookup "r" (get_result "r" (cState "pc")).1.rooms = some room1 ∧
      room1.players = cPlayers.map (fun p =>
        { p with points := amendedRoundPoints true p.role }) :=
  C1_computeresult_payouts (cState "pc") "r"
    { id := "r", players := cPlayers, roles_assigned := true, mantri_guess := some "pc" }
    "pc" { id := "pc", name := "C", role := some "Chor" } cScores
    rfl (by decide) (by decide) rfl (by decide) (by decide) rfl rfl (by decide)

/-- C2 (corrected): on the concrete wrong guess (Mantri guesses
himself, "pb"), the per-round payouts sum to 3600, not 2300 — the Chor
is paid 1300 while Mantri and Sipahi also keep 800 and 500. -/
theorem C2_counterexample :
    (get_result "r" (cState "pb")).2 = Except.ok (cWrongRows, false) ∧
    (cWrongRows.map ResultEntry.points).sum = 3600 :=
  ⟨rfl, rfl⟩

/-- C2 (amended): under the same well-formed-round hypotheses as C1,
the per-round points returned by ComputeResult sum to 2300 when the
guess is correct and to 3600 when it is wrong. -/
theorem C2_computeresult_total (s : ServerState) (rid : String) (room : Room)
    (gid : String) (gp : Player) (sm : ScoreMap)
    (hroom : dictLookup rid s.rooms = some room)
    (hperm : (room.players.map Player.role).Perm (ROLES.map some))
    (hids : (room.players.map Player.id).Nodup)
    (hguess : room.mantri_guess = some gid) (hgid : gid ≠ "")
    (hgp : gp ∈ room.players) (hgpid : gp.id = gid)
    (hsm : dictLookup rid s.player_scores = some sm)
    (hpres : ∀ p ∈ room.players, dictLookup p.id sm ≠ none) :
    ∃ entries, (get_result rid s).2 =
        Except.ok (entries, decide (gp.role = some "Chor")) ∧
      (entries.map ResultEntry.points).sum =
        (if gp.role = some "Chor" then 2300 else 3600) := by
  obtain ⟨c, hc, hfp, hdec, hlp, hroles⟩ :=
    good_round_spec room gid gp hperm hids hgp hgpid
  obtain ⟨h2, _, _, _⟩ :=
    get_result_spec s rid room gid gp c sm hroom hguess hgid hfp hc hsm hroles hpres
  refine ⟨room.players.map (entryOf gp c), by rw [h2, hdec], ?_⟩
  have hmap : (room.players.map (entryOf gp c)).map ResultEntry.points =
      (room.players.map Player.role).map
        (amendedRoundPoints (decide (gp.role = some "Chor"))) := by
    rw [List.map_map, List.map_map]
    apply List.map_congr_left
    intro p hp
    simp [entryOf, Function.comp, hlp p hp]
  rw [hmap]
  rw [(hperm.map (amendedRoundPoints (decide (gp.role = some "Chor")))).sum_eq]
  by_cases hch : gp.role = some "Chor"
  · rw [if_pos hch, hch]
    decide
  · rw [if_neg hch]
    have hf : decide (gp.role = some "Chor") = false := decide_eq_false hch
    rw [hf]
    decide

/-- C2 witness: the amended total instantiated at the concrete wrong
guess ("pb", the Mantri player): flag false and total 3600. -/
theorem C2_computeresult_total_witness :
    ∃ entries, (get_result "r" (cState "pb")).2 = Except.ok (entries, false) ∧
      (entries.map ResultEntry.points).sum = 3600 :=
  C2_computeresult_total (cState "pb") "r"
    { id := "r", players := cPlayers, roles_assigned := true, mantri_guess := some "pb" }
    "pb" { id := "pb", name := "B", role := some "Mantri" } cScores
    rfl (by decide) (by decide) rfl (by decide) (by decide) rfl rfl (by decide)

/-- C10: when the pending guess is truthy (set and non-empty) but does
not match any active player's id, or some active player's role is
unset, ComputeResult ends in the unhandled-exception outcome
ApiError.crash — not a result, and not one of the raised
NotFound/InvalidState errors. -/
theorem C10_dangling_guess_crash (s : ServerState) (rid : String) (room : Room)
    (gid : String)
    (hroom : dictLookup rid s.rooms = some room)
    (hguess : room.mantri_guess = some gid) (hgid : gid ≠ "")
    (hbad : (∀ p ∈ room.players, p.id ≠ gid) ∨ (∃ p ∈ room.players, p.role = none)) :
    (get_result rid s).2 = Except.error ApiError.crash := by
  have hguard : ¬ (room.mantri_guess = none ∨ room.mantri_guess = some "") := by
    rw [hguess]
    simp [hgid]
  rw [get_result]
  simp only [hroom, hguess]
  rw [if_neg (by simp [hgid])]
  rcases hbad with hnone | hrole
  · have hgp : findPlayer gid room.players = none := findPlayer_eq_none hnone
    simp only [hgp]
    rcases hcr : (resultLoop none (findByRole "Chor" room.players) rid
        s.player_scores room.players).crashed with _ | _ <;> simp
  · cases hgp : findPlayer gid room.players with
    | none =>
      rcases hcr : (resultLoop none (findByRole "Chor" room.players) rid
          s.player_scores room.players).crashed with _ | _ <;> simp
    | some g =>
      cases hch : findByRole "Chor" room.players with
      | none =>
        rcases hcr : (resultLoop (some g) none rid
            s.player_scores room.players).crashed with _ | _ <;> simp
      | some c =>
        have hcr : (resultLoop (some g) (some c) rid
            s.player_scores room.players).crashed = true := by
          apply resultLoop_crashed_of_role_none
          obtain ⟨p, hp, hr⟩ := hrole
          exact ⟨p, hp, by rw [hr]; rfl⟩
        simp [hcr]

/-- C10 witness: in the concrete room, the pending guess "zz" matches
no active player, and ComputeResult crashes. -/
theorem C10_dangling_guess_crash_witness :
    (get_result "r" (cState "zz")).2 = Except.error ApiError.crash :=
  C10_dangling_guess_crash (cState "zz") "r"
    { id := "r", players := cPlayers, roles_assigned := true, mantri_guess := some "zz" }
    "zz" rfl rfl (by decide) (Or.inl (by decide))

/-- C5: for a known room, ResetRound succeeds, unsets every active
player's role, zeroes per-round points, clears roles_assigned,
mantri_guess and round_complete, and leaves the waitlist, the player
ids and names, every cumulative score entry, and every other room
untouched; for an unknown room it fails with NotFound leaving the
store unchanged. -/
theorem C5_reset_round (rid : String) (s : ServerState) :
    (dictLookup rid s.rooms = none →
      reset_round rid s = (s, Except.error (ApiError.notFound "Room not found"))) ∧
    (∀ room, dictLookup rid s.rooms = some room →
      (reset_round rid s).2 = Except.ok "Room reset. Ready to assign roles." ∧
      (reset_round rid s).1.player_scores = s.player_scores ∧
      (∀ r', r' ≠ rid →
        dictLookup r' (reset_round rid s).1.rooms = dictLookup r' s.rooms) ∧
      ∃ room1, dictLookup rid (reset_round rid s).1.rooms = some room1 ∧
        room1.players = room.players.map (fun p => { p with role := none, points := 0 }) ∧
        room1.waitlist = room.waitlist ∧ room1.id = room.id ∧
        room1.roles_assigned = false ∧ room1.mantri_guess = none ∧
        room1.round_complete = false) := by
  constructor
  · intro h
    rw [reset_round]
    simp only [h]
  · intro room h
    have hr : reset_round rid s =
        ({ s with rooms := dictSet rid { room with players := room.players.map (fun p => { p with role := none, points := 0 }), roles_assigned := false, mantri_guess := none, round_complete := false } s.rooms },
         Except.ok "Room reset. Ready to assign roles.") := by
      rw [reset_round]
      simp only [h]
    rw [hr]
    refine ⟨rfl, rfl, ?_, ?_⟩
    · intro r' hr'
      exact dictLookup_dictSet_ne hr' _ _
    · exact ⟨_, dictLookup_dictSet_self _ _ _, rfl, rfl, rfl, rfl, rfl, rfl⟩

/-- C5 witness: resetting the concrete room clears roles, points and
flags while keeping the score table. -/
theorem C5_reset_round_witness :
    (reset_round "r" (cState "pc")).2 = Except.ok "Room reset. Ready to assign roles." ∧
    (reset_round "r" (cState "pc")).1.player_scores = (cState "pc").player_scores ∧
    (∀ r', r' ≠ "r" →
      dictLookup r' (reset_round "r" (cState "pc")).1.rooms =
        dictLookup r' (cState "pc").rooms) ∧
    ∃ room1, dictLookup "r" (reset_round "r" (cState "pc")).1.rooms = some room1 ∧
      room1.players = cPlayers.map (fun p => { p with role := none, points := 0 }) ∧
      room1.waitlist = [] ∧ room1.id = "r" ∧
      room1.roles_assigned = false ∧ room1.mantri_guess = none ∧
      room1.round_complete = false :=
  (C5_reset_round "r" (cState "pc")).2
    { id := "r", players := cPlayers, roles_assigned := true, mantri_guess := some "pc" }
    rfl

lemma assignList_spec : ∀ (players : List Player) (roles : List String),
    players.length ≤ roles.length →
    ∃ ps2, assignList roles players = some ps2 ∧
      ps2.map Player.role = (roles.take players.length).map some ∧
      ps2.map Player.id = players.map Player.id ∧
      ps2.length = players.length := by
  intro players
  induction players with
  | nil => intro roles _; exact ⟨[], by simp [assignList], by simp, by simp, rfl⟩
  | cons p rest ih =>
    intro roles h
    cases roles with
    | nil => simp at h
    | cons r rs =>
      have h2 : rest.length ≤ rs.length := by simpa using h
      obtain ⟨ps2, h1, hmap, hid, h3⟩ := ih rs h2
      refine ⟨{ p with role := some r } :: ps2, ?_, ?_, ?_, by simp [h3]⟩
      · simp [assignList, h1]
      · simp [hmap]
      · simp [hid]

/-- C3: whenever AssignRoles runs on a known room with exactly 4 active
players, given any shuffled permutation of the four roles it succeeds,
sets roles_assigned, and leaves the four players holding role values
that are exactly a permutation of {Raja, Mantri, Chor, Sipahi} — whose
point values sum to 2300. -/
theorem C3_assign_roles (s : ServerState) (rid : String) (room : Room)
    (shuffled : List String)
    (hroom : dictLookup rid s.rooms = some room)
    (hlen : room.players.length = 4)
    (hperm : shuffled.Perm ROLES) :
    (assign_roles rid shuffled s).2 = Except.ok "Roles assigned" ∧
    ∃ room1, dictLookup rid (assign_roles rid shuffled s).1.rooms = some room1 ∧
      room1.roles_assigned = true ∧
      (room1.players.map Player.role).Perm (ROLES.map some) ∧
      (room1.players.map (fun p => (rolePoints p.role).getD 0)).sum = 2300 := by
  have hslen : shuffled.length = 4 := by rw [hperm.length_eq]; rfl
  have hle : room.players.length ≤ shuffled.length := by omega
  obtain ⟨ps2, hassign, hroles, _, _⟩ := assignList_spec room.players shuffled hle
  have htake : shuffled.take room.players.length = shuffled := by
    rw [hlen, ← hslen]
    exact List.take_length shuffled
  have hroles2 : ps2.map Player.role = shuffled.map some := by rw [hroles, htake]
  have hnotlt : ¬ room.players.length < 4 := by omega
  have ha : assign_roles rid shuffled s =
      ({ s with rooms := dictSet rid { room with players := ps2, roles_assigned := true } s.rooms },
       Except.ok "Roles assigned") := by
    rw [assign_roles]
    simp only [hroom]
    rw [if_neg hnotlt]
    simp only [hassign]
  rw [ha]
  refine ⟨rfl, _, dictLookup_dictSet_self _ _ _, rfl, ?_, ?_⟩
  · rw [hroles2]
    exact hperm.map some
  · have hmm : ps2.map (fun p => (rolePoints p.role).getD 0) =
        (ps2.map Player.role).map (fun r => (rolePoints r).getD 0) := by
      rw [List.map_map]
      rfl
    rw [hmm, hroles2]
    rw [((hperm.map some).map (fun r => (rolePoints r).getD 0)).sum_eq]
    decide

/-- C3 witness: assigning the identity permutation of roles in the
concrete 4-player room. -/
theorem C3_assign_roles_witness :
    (assign_roles "r" ROLES (cState "pc")).2 = Except.ok "Roles assigned" ∧
    ∃ room1, dictLookup "r" (assign_roles "r" ROLES (cState "pc")).1.rooms = some room1 ∧
      room1.roles_assigned = true ∧
      (room1.players.map Player.role).Perm (ROLES.map some) ∧
      (room1.players.map (fun p => (rolePoints p.role).getD 0)).sum = 2300 :=
  C3_assign_roles (cState "pc") "r"
    { id := "r", players := cPlayers, roles_assigned := true, mantri_guess := some "pc" }
    ROLES rfl rfl (List.Perm.refl ROLES)

lemma findPlayer_map_updP (g c : Player) (pid : String) :
    ∀ ps : List Player,
    findPlayer pid (ps.map (updP g c)) = (findPlayer pid ps).map (updP g c) := by
  intro ps
  induction ps with
  | nil => rfl
  | cons a rest ih =>
    by_cases h : a.id = pid
    · simp [findPlayer, updP, h]
    · simp [findPlayer, updP, h, ih]

lemma findByRole_map_updP (g c : Player) (r : String) :
    ∀ ps : List Player,
    findByRole r (ps.map (updP g c)) = (findByRole r ps).map (updP g c) := by
  intro ps
  induction ps with
  | nil => rfl
  | cons a rest ih =>
    by_cases h : a.role = some r
    · simp [findByRole, updP, h]
    · simp [findByRole, updP, h, ih]

lemma loopPts_updP (g c g2 c2 p : Player)
    (hg : g2.id = g.id) (hc : c2.id = c.id) :
    loopPts g2 c2 (updP g c p) = loopPts g c p := by
  simp [loopPts, updP, hg, hc]

lemma bumpSum_map_updP (g c g2 c2 : Player) (q : String)
    (hg : g2.id = g.id) (hc : c2.id = c.id) :
    ∀ ps : List Player,
    bumpSum g2 c2 q (ps.map (updP g c)) = bumpSum g c q ps := by
  intro ps
  induction ps with
  | nil => rfl
  | cons a rest ih =>
    simp only [List.map_cons, bumpSum, ih]
    by_cases h : a.id = q
    · have h2 : (updP g c a).id = q := h
      rw [if_pos h, if_pos h2, loopPts_updP g c g2 c2 a hg hc]
    · have h2 : ¬ (updP g c a).id = q := h
      rw [if_neg h, if_neg h2]

/-- C9: ComputeResult leaves the pending guess in place, so a second
immediate ComputeResult succeeds with the same rows and flag and adds
the same per-round amounts to every cumulative score a second time:
the operation is not idempotent on the score table. -/
theorem C9_computeresult_not_idempotent (s s1 : ServerState) (rid : String)
    (entries : List ResultEntry) (flag : Bool)
    (h : get_result rid s = (s1, Except.ok (entries, flag))) :
    (∀ room room1, dictLookup rid s.rooms = some room →
        dictLookup rid s1.rooms = some room1 →
        room1.mantri_guess = room.mantri_guess) ∧
    ∃ s2, get_result rid s1 = (s2, Except.ok (entries, flag)) ∧
      ∀ q v0 v1, scoreEntry s rid q = some v0 → scoreEntry s1 rid q = some v1 →
        scoreEntry s2 rid q = some (v1 + (v1 - v0)) := by
  obtain ⟨room, gid, g, c, hroom, hguess, hgid, hg, hc, hcr⟩ := get_result_ok_inv h
  obtain ⟨hroles, hrest⟩ := resultLoop_ok_inv g c rid room.players s.player_scores hcr
  have hne : room.players ≠ [] := by
    intro hnil
    rw [hnil] at hg
    simp [findPlayer] at hg
  rcases hrest with hnil | ⟨sm, hsm, hpres⟩
  · exact absurd hnil hne
  obtain ⟨hsnd1, hrooms1, hoth1, sm1, hsm1, hadd1⟩ :=
    get_result_spec s rid room gid g c sm hroom hguess hgid hg hc hsm hroles hpres
  have hs1 : (get_result rid s).1 = s1 := by rw [h]
  have hsnd : (get_result rid s).2 = Except.ok (entries, flag) := by rw [h]
  have hef : room.players.map (entryOf g c) = entries ∧ decide (g.id = c.id) = flag := by
    rw [hsnd1] at hsnd
    have := Except.ok.inj hsnd
    exact ⟨congrArg Prod.fst this, congrArg Prod.snd this⟩
  obtain ⟨hentries, hflag⟩ := hef
  set room1 : Room :=
    { room with players := room.players.map (updP g c), round_complete := true } with hroomdef
  have hroom1 : dictLookup rid s1.rooms = some room1 := by
    rw [← hs1, hrooms1]
    exact dictLookup_dictSet_self _ _ _
  have hsm1b : dictLookup rid s1.player_scores = some sm1 := by
    rw [← hs1]
    exact hsm1
  constructor
  · intro room' room1' hr' hr1'
    have h1 : room' = room := Option.some_inj.mp (hr'.symm.trans hroom)
    have h2 : room1' = room1 := Option.some_inj.mp (hr1'.symm.trans hroom1)
    rw [h1, h2]
  · have hg1 : findPlayer gid room1.players = some (updP g c g) := by
      rw [hroomdef]
      simp only
      rw [findPlayer_map_updP, hg]
      rfl
    have hc1 : findByRole "Chor" room1.players = some (updP g c c) := by
      rw [hroomdef]
      simp only
      rw [findByRole_map_updP, hc]
      rfl
    have hroles1 : ∀ p ∈ room1.players, rolePoints p.role ≠ none := by
      intro p hp
      rw [hroomdef] at hp
      simp only [List.mem_map] at hp
      obtain ⟨p0, hp0, rfl⟩ := hp
      exact hroles p0 hp0
    have hpres1 : ∀ p ∈ room1.players, dictLookup p.id sm1 ≠ none := by
      intro p hp
      rw [hroomdef] at hp
      simp only [List.mem_map] at hp
      obtain ⟨p0, hp0, rfl⟩ := hp
      obtain ⟨v0, hv0⟩ := Option.ne_none_iff_exists'.mp (hpres p0 hp0)
      have := hadd1 p0.id v0 hv0
      have hid : (updP g c p0).id = p0.id := rfl
      rw [hid, this]
      exact Option.some_ne_none _
    obtain ⟨hsnd2, hrooms2, hoth2, sm2, hsm2, hadd2⟩ :=
      get_result_spec s1 rid room1 gid (updP g c g) (updP g c c) sm1
        hroom1 (by rw [hroomdef]; exact hguess) hgid hg1 hc1 hsm1b hroles1 hpres1
    have hentries2 : room1.players.map (entryOf (updP g c g) (updP g c c)) = entries := by
      rw [← hentries, hroomdef]
      simp only [List.map_map]
      apply List.map_congr_left
      intro p hp
      have h5 := loopPts_updP g c (updP g c g) (updP g c c) p rfl rfl
      simp only [Function.comp_apply, entryOf]
      rw [h5]
      simp [updP]
    have hflag2 : decide ((updP g c g).id = (updP g c c).id) = flag := by
      rw [← hflag]
      rfl
    refine ⟨(get_result rid s1).1, ?_, ?_⟩
    · have : get_result rid s1 = ((get_result rid s1).1, (get_result rid s1).2) := rfl
      rw [this, hsnd2, hentries2, hflag2]
    · intro q v0 v1 hv0 hv1
      have hv0' : dictLookup q sm = some v0 := by
        simp only [scoreEntry, hsm] at hv0
        exact hv0
      have hv1' : dictLookup q sm1 = some v1 := by
        simp only [scoreEntry, hsm1b] at hv1
        exact hv1
      have hb1 := hadd1 q v0 hv0'
      have hveq : v1 = v0 + bumpSum g c q room.players := by
        rw [hv1'] at hb1
        exact Option.some_inj.mp hb1
      have hb2 := hadd2 q v1 hv1'
      have hbump : bumpSum (updP g c g) (updP g c c) q room1.players =
          bumpSum g c q room.players := by
        rw [hroomdef]
        exact bumpSum_map_updP g c (updP g c g) (updP g c c) q rfl rfl room.players
      rw [hbump] at hb2
      have : scoreEntry (get_result rid s1).1 rid q = some (v1 + bumpSum g c q room.players) := by
        simp only [scoreEntry, hsm2]
        exact hb2
      rw [this]
      congr 1
      omega

/-- C9 witness: running ComputeResult twice from the concrete
correct-guess room returns identical rows both times and doubles every
cumulative gain. -/
theorem C9_computeresult_not_idempotent_witness :
    (∀ room room1, dictLookup "r" (cState "pc").rooms = some room →
        dictLookup "r" ((get_result "r" (cState "pc")).1).rooms = some room1 →
        room1.mantri_guess = room.mantri_guess) ∧
    ∃ s2, get_result "r" ((get_result "r" (cState "pc")).1) =
        (s2, Except.ok (cCorrectRows, true)) ∧
      ∀ q v0 v1, scoreEntry (cState "pc") "r" q = some v0 →
        scoreEntry ((get_result "r" (cState "pc")).1) "r" q = some v1 →
        scoreEntry s2 "r" q = some (v1 + (v1 - v0)) :=
  C9_computeresult_not_idempotent (cState "pc") ((get_result "r" (cState "pc")).1)
    "r" cCorrectRows true rfl

lemma sortDescInsert_perm (x : String × Int) :
    ∀ l, (sortDescInsert x l).Perm (x :: l) := by
  intro l
  induction l with
  | nil => simp [sortDescInsert]
  | cons y ys ih =>
    by_cases h : x.2 ≥ y.2
    · rw [sortDescInsert, if_pos h]
    · rw [sortDescInsert, if_neg h]
      exact (ih.cons y).trans (List.Perm.swap x y ys)

lemma sortDesc_perm : ∀ l, (sortDesc l).Perm l := by
  intro l
  induction l with
  | nil => exact List.Perm.refl []
  | cons x xs ih =>
    exact (sortDescInsert_perm x (sortDesc xs)).trans (ih.cons x)

lemma sortDescInsert_sorted (x : String × Int) :
    ∀ l, l.Pairwise (fun a b => b.2 ≤ a.2) →
    (sortDescInsert x l).Pairwise (fun a b => b.2 ≤ a.2) := by
  intro l
  induction l with
  | nil => intro _; simp [sortDescInsert]
  | cons y ys ih =>
    intro hp
    rw [List.pairwise_cons] at hp
    obtain ⟨hy, hys⟩ := hp
    by_cases h : x.2 ≥ y.2
    · rw [sortDescInsert, if_pos h]
      rw [List.pairwise_cons]
      refine ⟨?_, ?_⟩
      · intro b hb
        rcases List.mem_cons.mp hb with rfl | hb2
        · exact h
        · exact le_trans (hy b hb2) h
      · rw [List.pairwise_cons]
        exact ⟨hy, hys⟩
    · rw [sortDescInsert, if_neg h]
      rw [List.pairwise_cons]
      refine ⟨?_, ih hys⟩
      intro b hb
      have hbmem : b ∈ x :: ys := (sortDescInsert_perm x ys).mem_iff.mp hb
      rcases List.mem_cons.mp hbmem with rfl | hb2
      · exact le_of_lt (lt_of_not_ge h)
      · exact hy b hb2

lemma sortDesc_sorted : ∀ l, (sortDesc l).Pairwise (fun a b => b.2 ≤ a.2) := by
  intro l
  induction l with
  | nil => exact List.Pairwise.nil
  | cons x xs ih => exact sortDescInsert_sorted x (sortDesc xs) ih

lemma forall2_map_snd {R : (String × Int) → (String × Int) → Prop}
    (hR : ∀ a b, R a b → a.2 = b.2) :
    ∀ {rows l : List (String × Int)}, List.Forall₂ R rows l →
    rows.map Prod.snd = l.map Prod.snd := by
  intro rows l h
  induction h with
  | nil => rfl
  | cons h1 _ ih => simp [hR _ _ h1, ih]

lemma leaderboardRows_spec (players : List Player) :
    ∀ l : List (String × Int),
    (∀ kv ∈ l, ∃ p ∈ players, p.id = kv.1) →
    ∃ rows, leaderboardRows players l = some rows ∧
      List.Forall₂ (fun (row : String × Int) (kv : String × Int) =>
        row.2 = kv.2 ∧ ∃ p, findPlayer kv.1 players = some p ∧ row.1 = p.name) rows l := by
  intro l
  induction l with
  | nil => intro _; exact ⟨[], rfl, List.Forall₂.nil⟩
  | cons kv rest ih =>
    intro h
    obtain ⟨p0, hp0, hid⟩ := h kv (List.mem_cons_self kv rest)
    obtain ⟨q, hq⟩ := findPlayer_isSome_of_mem hp0 hid
    obtain ⟨rows, h1, h2⟩ := ih (fun kv2 hkv2 => h kv2 (List.mem_cons_of_mem _ hkv2))
    refine ⟨(q.name, kv.2) :: rows, ?_, ?_⟩
    · simp [leaderboardRows, hq, h1]
    · exact List.Forall₂.cons ⟨rfl, q, hq, rfl⟩ h2

/-- C8: for a known room whose score-table ids all resolve to active
players, GetLeaderboard returns one row per cumulative score entry,
carrying the resolved player's current name, in an order sorted
descending by score, so a strictly higher score always appears
strictly earlier; for an unknown room it fails with NotFound. -/
theorem C8_leaderboard_sorted (s : ServerState) (rid : String) :
    (dictLookup rid s.rooms = none →
      get_leaderboard rid s = (s, Except.error (ApiError.notFound "Room not found"))) ∧
    (∀ room sm, dictLookup rid s.rooms = some room →
      dictLookup rid s.player_scores = some sm →
      (∀ kv ∈ sm, ∃ p ∈ room.players, p.id = kv.1) →
      ∃ rows, get_leaderboard rid s = (s, Except.ok rows) ∧
        rows.length = sm.length ∧
        (sortDesc sm).Perm sm ∧
        List.Forall₂ (fun (row : String × Int) (kv : String × Int) =>
          row.2 = kv.2 ∧ ∃ p, findPlayer kv.1 room.players = some p ∧ row.1 = p.name)
          rows (sortDesc sm) ∧
        rows.Pairwise (fun a b => b.2 ≤ a.2) ∧
        (∀ i j (hi : i < rows.length) (hj : j < rows.length),
          (rows.get ⟨j, hj⟩).2 < (rows.get ⟨i, hi⟩).2 → i < j)) := by
  constructor
  · intro h
    rw [get_leaderboard]
    simp only [h]
  · intro room sm hroom hsm hres
    have hres2 : ∀ kv ∈ sortDesc sm, ∃ p ∈ room.players, p.id = kv.1 :=
      fun kv hkv => hres kv ((sortDesc_perm sm).mem_iff.mp hkv)
    obtain ⟨rows, hrows, hfa⟩ := leaderboardRows_spec room.players (sortDesc sm) hres2
    have hlb : get_leaderboard rid s = (s, Except.ok rows) := by
      rw [get_leaderboard]
      simp only [hroom, hsm, hrows]
    have hlen : rows.length = sm.length := by
      rw [hfa.length_eq]
      exact (sortDesc_perm sm).length_eq
    have hsnd : rows.map Prod.snd = (sortDesc sm).map Prod.snd :=
      forall2_map_snd (fun a b hab => hab.1) hfa
    have hpair : rows.Pairwise (fun a b => b.2 ≤ a.2) := by
      have h1 : (rows.map Prod.snd).Pairwise (fun a b : Int => b ≤ a) := by
        rw [hsnd, List.pairwise_map]
        exact sortDesc_sorted sm
      rw [List.pairwise_map] at h1
      exact h1
    refine ⟨rows, hlb, hlen, sortDesc_perm sm, hfa, hpair, ?_⟩
    intro i j hi hj hlt
    by_contra hne
    push_neg at hne
    rcases Nat.eq_or_lt_of_le hne with heq | hlt2
    · have hfin : (⟨j, hj⟩ : Fin rows.length) = ⟨i, hi⟩ := Fin.mk_eq_mk.mpr heq
      rw [hfin] at hlt
      exact lt_irrefl _ hlt
    · have h6 := List.pairwise_iff_get.mp hpair ⟨j, hj⟩ ⟨i, hi⟩ hlt2
      exact absurd hlt (not_lt.mpr h6)

/-- C8 witness: the leaderboard of the concrete room resolves all four
score entries and satisfies the descending-order facts. -/
theorem C8_leaderboard_sorted_witness :
    ∃ rows, get_leaderboard "r" (cState "pc") = (cState "pc", Except.ok rows) ∧
      rows.length = cScores.length ∧
      (sortDesc cScores).Perm cScores ∧
      List.Forall₂ (fun (row : String × Int) (kv : String × Int) =>
        row.2 = kv.2 ∧ ∃ p, findPlayer kv.1 cPlayers = some p ∧ row.1 = p.name)
        rows (sortDesc cScores) ∧
      rows.Pairwise (fun a b => b.2 ≤ a.2) ∧
      (∀ i j (hi : i < rows.length) (hj : j < rows.length),
        (rows.get ⟨j, hj⟩).2 < (rows.get ⟨i, hi⟩).2 → i < j) :=
  (C8_leaderboard_sorted (cState "pc") "r").2
    { id := "r", players := cPlayers, roles_assigned := true, mantri_guess := some "pc" }
    cScores rfl rfl (by decide)

lemma resultLoop_players_length (guessed chor : Option Player) (rid : String) :
    ∀ (ps : List Player) (scores : List (String × ScoreMap)),
    (resultLoop guessed chor rid scores ps).players.length = ps.length := by
  intro ps
  induction ps with
  | nil => intro scores; rfl
  | cons p rest ih =>
    intro scores
    cases hb : rolePoints p.role with
    | none => simp [resultLoop, hb]
    | some base =>
      cases guessed with
      | none => simp [resultLoop, hb]
      | some g =>
        cases chor with
        | none => simp [resultLoop, hb]
        | some c =>
          cases hsm : dictLookup rid scores with
          | none => simp [resultLoop, hb, hsm]
          | some sm =>
            cases hcur : dictLookup p.id sm with
            | none => simp [resultLoop, hb, hsm, hcur]
            | some cur => simp [resultLoop, hb, hsm, hcur, ih]

lemma resultLoop_scores_isSome (guessed chor : Option Player) (rid : String) :
    ∀ (ps : List Player) (scores : List (String × ScoreMap)) (r' : String),
    dictLookup r' scores ≠ none →
    dictLookup r' (resultLoop guessed chor rid scores ps).scores ≠ none := by
  intro ps
  induction ps with
  | nil => intro scores r' h; exact h
  | cons p rest ih =>
    intro scores r' h
    cases hb : rolePoints p.role with
    | none => simpa [resultLoop, hb] using h
    | some base =>
      cases guessed with
      | none => simpa [resultLoop, hb] using h
      | some g =>
        cases chor with
        | none => simpa [resultLoop, hb] using h
        | some c =>
          cases hsm : dictLookup rid scores with
          | none => simpa [resultLoop, hb, hsm] using h
          | some sm =>
            cases hcur : dictLookup p.id sm with
            | none => simpa [resultLoop, hb, hsm, hcur] using h
            | some cur =>
              simp only [resultLoop, hb, hsm, hcur]
              exact ih _ r' (dictLookup_dictSet_isSome h)

lemma resultLoop_mono (guessed chor : Option Player) (rid : String) :
    ∀ (ps : List Player) (scores : List (String × ScoreMap))
      (r' q : String) (sm' : ScoreMap) (v : Int),
    dictLookup r' scores = some sm' → dictLookup q sm' = some v →
    ∃ sm2 v2, dictLookup r' (resultLoop guessed chor rid scores ps).scores = some sm2 ∧
      dictLookup q sm2 = some v2 ∧ v ≤ v2 := by
  intro ps
  induction ps with
  | nil => intro scores r' q sm' v h1 h2; exact ⟨sm', v, h1, h2, le_refl v⟩
  | cons p rest ih =>
    intro scores r' q sm' v h1 h2
    cases hb : rolePoints p.role with
    | none => exact ⟨sm', v, by simpa [resultLoop, hb] using h1, h2, le_refl v⟩
    | some base =>
      cases guessed with
      | none => exact ⟨sm', v, by simpa [resultLoop, hb] using h1, h2, le_refl v⟩
      | some g =>
        cases chor with
        | none => exact ⟨sm', v, by simpa [resultLoop, hb] using h1, h2, le_refl v⟩
        | some c =>
          cases hsm : dictLookup rid scores with
          | none => exact ⟨sm', v, by simpa [resultLoop, hb, hsm] using h1, h2, le_refl v⟩
          | some sm =>
            cases hcur : dictLookup p.id sm with
            | none =>
              exact ⟨sm', v, by simpa [resultLoop, hb, hsm, hcur] using h1, h2, le_refl v⟩
            | some cur =>
              simp only [resultLoop, hb, hsm, hcur]
              have hpts : (0 : Int) ≤
                  (if g.id = c.id ∧ (p.role = some "Mantri" ∨ p.role = some "Sipahi")
                   then base
                   else if g.id ≠ c.id ∧ p.role = some "Chor" then 800 + 500 else base) := by
                have hb0 : (0 : Int) ≤ base := rolePoints_nonneg hb
                split_ifs <;> omega
              by_cases hr : r' = rid
              · subst hr
                have hsmeq : sm' = sm := Option.some_inj.mp (h1.symm.trans hsm)
                subst hsmeq
                by_cases hq : q = p.id
                · have hveq : v = cur := by
                    rw [hq, hcur] at h2
                    exact (Option.some_inj.mp h2).symm
                  obtain ⟨sm2, v2, ha, hbq, hle⟩ := ih
                    (dictSet r' (dictSet p.id (cur + _) sm') scores) r' q
                    (dictSet p.id (cur + _) sm') (cur + _)
                    (dictLookup_dictSet_self _ _ _) (by rw [hq]; exact dictLookup_dictSet_self _ _ _)
                  exact ⟨sm2, v2, ha, hbq, by omega⟩
                · obtain ⟨sm2, v2, ha, hbq, hle⟩ := ih
                    (dictSet r' (dictSet p.id (cur + _) sm') scores) r' q
                    (dictSet p.id (cur + _) sm') v
                    (dictLookup_dictSet_self _ _ _)
                    (by rw [dictLookup_dictSet_ne hq]; exact h2)
                  exact ⟨sm2, v2, ha, hbq, hle⟩
              · obtain ⟨sm2, v2, ha, hbq, hle⟩ := ih
                  (dictSet rid (dictSet p.id (cur + _) sm) scores) r' q sm' v
                  (by rw [dictLookup_dictSet_ne hr]; exact h1) h2
                exact ⟨sm2, v2, ha, hbq, hle⟩

lemma scoreEntry_eq {s : ServerState} {rid : String} {sm : ScoreMap}
    (h : dictLookup rid s.player_scores = some sm) (pid : String) :
    scoreEntry s rid pid = dictLookup pid sm := by
  simp [scoreEntry, h]

lemma scoreEntry_some_inv {s : ServerState} {rid pid : String} {v : Int}
    (hv : scoreEntry s rid pid = some v) :
    ∃ sm, dictLookup rid s.player_scores = some sm ∧ dictLookup pid sm = some v := by
  simp only [scoreEntry] at hv
  cases h : dictLookup rid s.player_scores with
  | none => rw [h] at hv; cases hv
  | some sm => rw [h] at hv; exact ⟨sm, rfl, hv⟩

lemma get_rooms_fst (s : ServerState) : (get_rooms s).1 = s := rfl

lemma get_players_fst (rid : String) (s : ServerState) : (get_players rid s).1 = s := by
  cases h : dictLookup rid s.rooms <;> simp [get_players, h]

lemma get_my_role_fst (rid pid : String) (s : ServerState) :
    (get_my_role rid pid s).1 = s := by
  cases h : dictLookup rid s.rooms with
  | none => simp [get_my_role, h]
  | some room => cases h2 : findPlayer pid room.players <;> simp [get_my_role, h, h2]

lemma get_leaderboard_fst (rid : String) (s : ServerState) :
    (get_leaderboard rid s).1 = s := by
  cases h : dictLookup rid s.rooms with
  | none => simp [get_leaderboard, h]
  | some room =>
    cases h2 : dictLookup rid s.player_scores with
    | none => simp [get_leaderboard, h, h2]
    | some scores =>
      cases h3 : leaderboardRows room.players (sortDesc scores) <;>
        simp [get_leaderboard, h, h2, h3]

lemma assign_roles_player_scores (rid : String) (sh : List String) (s : ServerState) :
    (assign_roles rid sh s).1.player_scores = s.player_scores := by
  cases h : dictLookup rid s.rooms with
  | none => simp [assign_roles, h]
  | some room =>
    by_cases h2 : room.players.length < 4
    · simp [assign_roles, h, h2]
    · cases h3 : assignList sh room.players <;> simp [assign_roles, h, h2, h3]

lemma reset_round_player_scores (rid : String) (s : ServerState) :
    (reset_round rid s).1.player_scores = s.player_scores := by
  cases h : dictLookup rid s.rooms <;> simp [reset_round, h]

lemma submit_guess_player_scores (rid gid mid : String) (s : ServerState) :
    (submit_guess rid gid mid s).1.player_scores = s.player_scores := by
  cases h : dictLookup rid s.rooms with
  | none => simp [submit_guess, h]
  | some room =>
    cases h2 : findPlayer mid room.players with
    | none => simp [submit_guess, h, h2]
    | some m =>
      by_cases h3 : m.role = some "Mantri" <;> simp [submit_guess, h, h2, h3]

lemma scoreEntry_congr {s t : ServerState}
    (h : t.player_scores = s.player_scores) (rid pid : String) :
    scoreEntry t rid pid = scoreEntry s rid pid := by
  simp [scoreEntry, h]

lemma scoreEntry_create (rid' pid' nm : String) (s : ServerState)
    (h2 : dictLookup rid' s.player_scores = none) (rid pid : String) (v : Int)
    (hv : scoreEntry s rid pid = some v) :
    scoreEntry (create_room rid' pid' nm s).1 rid pid = some v := by
  obtain ⟨sm, hsm, hpid⟩ := scoreEntry_some_inv hv
  have hne : rid ≠ rid' := by
    intro hh
    rw [hh, h2] at hsm
    cases hsm
  have hl : dictLookup rid (create_room rid' pid' nm s).1.player_scores = some sm := by
    simp only [create_room]
    rw [dictLookup_dictSet_ne hne]
    exact hsm
  rw [scoreEntry_eq hl]
  exact hpid

lemma scoreEntry_join (rid' pid' nm : String) (s : ServerState)
    (hfresh : scoreEntry s rid' pid' = none) (rid pid : String) (v : Int)
    (hv : scoreEntry s rid pid = some v) :
    scoreEntry (join_room rid' pid' nm s).1 rid pid = some v := by
  obtain ⟨sm, hsm, hpid⟩ := scoreEntry_some_inv hv
  cases hr : dictLookup rid' s.rooms with
  | none =>
    have : (join_room rid' pid' nm s).1 = s := by simp [join_room, hr]
    rw [this]
    exact hv
  | some room =>
    by_cases hlen : room.players.length < 4
    · cases hsc : dictLookup rid' s.player_scores with
      | none =>
        have : (join_room rid' pid' nm s).1.player_scores = s.player_scores := by
          simp [join_room, hr, hlen, hsc]
        rw [scoreEntry_congr this]
        exact hv
      | some scores =>
        have hps : (join_room rid' pid' nm s).1.player_scores =
            dictSet rid' (dictSet pid' 0 scores) s.player_scores := by
          simp [join_room, hr, hlen, hsc]
        by_cases hrr : rid = rid'
        · subst hrr
          have hsmeq : sm = scores := Option.some_inj.mp (hsm.symm.trans hsc)
          subst hsmeq
          have hpp : pid ≠ pid' := by
            intro hh
            rw [scoreEntry_eq hsc, ← hh] at hfresh
            rw [hfresh] at hpid
            cases hpid
          have hl : dictLookup rid (join_room rid pid' nm s).1.player_scores =
              some (dictSet pid' 0 sm) := by
            rw [hps]
            exact dictLookup_dictSet_self _ _ _
          rw [scoreEntry_eq hl, dictLookup_dictSet_ne hpp]
          exact hpid
        · have hl : dictLookup rid (join_room rid' pid' nm s).1.player_scores = some sm := by
            rw [hps, dictLookup_dictSet_ne hrr]
            exact hsm
          rw [scoreEntry_eq hl]
          exact hpid
    · have : (join_room rid' pid' nm s).1.player_scores = s.player_scores := by
        simp [join_room, hr, hlen]
      rw [scoreEntry_congr this]
      exact hv

lemma scoreEntry_result_mono (rid' : String) (s : ServerState) (rid pid : String) (v : Int)
    (hv : scoreEntry s rid pid = some v) :
    ∃ v2, scoreEntry (get_result rid' s).1 rid pid = some v2 ∧ v ≤ v2 := by
  obtain ⟨sm, hsm, hpid⟩ := scoreEntry_some_inv hv
  cases hr : dictLookup rid' s.rooms with
  | none =>
    have : (get_result rid' s).1 = s := by simp [get_result, hr]
    rw [this]
    exact ⟨v, hv, le_refl v⟩
  | some room =>
    by_cases hguard : room.mantri_guess = none ∨ room.mantri_guess = some ""
    · have hstate : (get_result rid' s).1 = s := by
        rw [get_result]
        simp only [hr]
        rw [if_pos hguard]
      rw [hstate]
      exact ⟨v, hv, le_refl v⟩
    · push_neg at hguard
      obtain ⟨hg1, hg2⟩ := hguard
      cases hmg : room.mantri_guess with
      | none => exact absurd hmg hg1
      | some gid =>
        have hgid : gid ≠ "" := by
          intro hh
          exact hg2 (by rw [hmg, hh])
        obtain ⟨sm2, v2, ha, hb, hle⟩ := resultLoop_mono
          (findPlayer gid room.players) (findByRole "Chor" room.players) rid'
          room.players s.player_scores rid pid sm v hsm hpid
        have hps : (get_result rid' s).1.player_scores =
            (resultLoop (findPlayer gid room.players) (findByRole "Chor" room.players)
              rid' s.player_scores room.players).scores := by
          rw [get_result]
          simp only [hr, hmg]
          rw [if_neg (by simp [hgid])]
          split
          · rfl
          · split <;> rfl
        have hl : dictLookup rid (get_result rid' s).1.player_scores = some sm2 := by
          rw [hps]
          exact ha
        rw [scoreEntry_eq hl]
        exact ⟨v2, hb, hle⟩

lemma assignList_length : ∀ (ps : List Player) (roles : List String) (ps2 : List Player),
    assignList roles ps = some ps2 → ps2.length = ps.length := by
  intro ps
  induction ps with
  | nil =>
    intro roles ps2 h
    simp [assignList] at h
    rw [← h]
  | cons p rest ih =>
    intro roles ps2 h
    cases roles with
    | nil => simp [assignList] at h
    | cons r rs =>
      simp only [assignList, Option.map_eq_some'] at h
      obtain ⟨ps3, h1, h2⟩ := h
      rw [← h2]
      simp [ih rs ps3 h1]

lemma get_result_shape (rid' : String) (s : ServerState) :
    (get_result rid' s).1 = s ∨
    ∃ room guessed chor rc,
      dictLookup rid' s.rooms = some room ∧
      (get_result rid' s).1 =
        { rooms := dictSet rid' { room with
            players := (resultLoop guessed chor rid' s.player_scores room.players).players,
            round_complete := rc } s.rooms,
          player_scores :=
            (resultLoop guessed chor rid' s.player_scores room.players).scores } := by
  cases hr : dictLookup rid' s.rooms with
  | none => left; simp [get_result, hr]
  | some room =>
    by_cases hguard : room.mantri_guess = none ∨ room.mantri_guess = some ""
    · left
      rw [get_result]
      simp only [hr]
      rw [if_pos hguard]
    · right
      push_neg at hguard
      obtain ⟨hg1, hg2⟩ := hguard
      cases hmg : room.mantri_guess with
      | none => exact absurd hmg hg1
      | some gid =>
        have hgid : gid ≠ "" := by
          intro hh
          exact hg2 (by rw [hmg, hh])
        cases hgp : findPlayer gid room.players with
        | none =>
          cases hch : findByRole "Chor" room.players with
          | none =>
            cases hcrb : (resultLoop none none rid'
                s.player_scores room.players).crashed with
            | true =>
              refine ⟨room, none, none, room.round_complete, rfl, ?_⟩
              rw [get_result]
              simp only [hr, hmg]
              rw [if_neg (by simp [hgid])]
              simp only [hgp, hch, hcrb]
              simp
            | false =>
              refine ⟨room, none, none, room.round_complete, rfl, ?_⟩
              rw [get_result]
              simp only [hr, hmg]
              rw [if_neg (by simp [hgid])]
              simp only [hgp, hch, hcrb]
              simp
          | some c =>
            cases hcrb : (resultLoop none (some c) rid'
                s.player_scores room.players).crashed with
            | true =>
              refine ⟨room, none, some c, room.round_complete, rfl, ?_⟩
              rw [get_result]
              simp only [hr, hmg]
              rw [if_neg (by simp [hgid])]
              simp only [hgp, hch, hcrb]
              simp
            | false =>
              refine ⟨room, none, some c, room.round_complete, rfl, ?_⟩
              rw [get_result]
              simp only [hr, hmg]
              rw [if_neg (by simp [hgid])]
              simp only [hgp, hch, hcrb]
              simp
        | some g =>
          cases hch : findByRole "Chor" room.players with
          | none =>
            cases hcrb : (resultLoop (some g) none rid'
                s.player_scores room.players).crashed with
            | true =>
              refine ⟨room, some g, none, room.round_complete, rfl, ?_⟩
              rw [get_result]
              simp only [hr, hmg]
              rw [if_neg (by simp [hgid])]
              simp only [hgp, hch, hcrb]
              simp
            | false =>
              refine ⟨room, some g, none, room.round_complete, rfl, ?_⟩
              rw [get_result]
              simp only [hr, hmg]
              rw [if_neg (by simp [hgid])]
              simp only [hgp, hch, hcrb]
              simp
          | some c =>
            cases hcrb : (resultLoop (some g) (some c) rid'
                s.player_scores room.players).crashed with
            | true =>
              refine ⟨room, some g, some c, room.round_complete, rfl, ?_⟩
              rw [get_result]
              simp only [hr, hmg]
              rw [if_neg (by simp [hgid])]
              simp only [hgp, hch, hcrb]
              simp
            | false =>
              refine ⟨room, some g, some c, true, rfl, ?_⟩
              rw [get_result]
              simp only [hr, hmg]
              rw [if_neg (by simp [hgid])]
              simp only [hgp, hch, hcrb]
              simp

lemma storeInv_init : StoreInv initState := by
  intro rid room h
  simp [initState, dictLookup] at h

lemma storeInv_step {s t : ServerState} (hstep : Step s t) (hinv : StoreInv s) :
    StoreInv t := by
  cases hstep with
  | mk op s hfr =>
    cases op with
    | create rid' pid' nm =>
      intro rid room hroom
      obtain ⟨h1, h2, _⟩ := hfr
      simp only [applyOp, create_room] at hroom ⊢
      by_cases hrr : rid = rid'
      · subst hrr
        rw [dictLookup_dictSet_self] at hroom
        have hrm := (Option.some_inj.mp hroom).symm
        constructor
        · rw [hrm]
          simp
        · rw [dictLookup_dictSet_self]
          simp
      · rw [dictLookup_dictSet_ne hrr] at hroom
        obtain ⟨hlen, hsc⟩ := hinv rid room hroom
        refine ⟨hlen, ?_⟩
        rw [dictLookup_dictSet_ne hrr]
        exact hsc
    | join rid' pid' nm =>
      intro rid room hroom
      simp only [applyOp] at hroom ⊢
      cases hr : dictLookup rid' s.rooms with
      | none =>
        have hJ : (join_room rid' pid' nm s).1 = s := by simp [join_room, hr]
        rw [hJ] at hroom ⊢
        exact hinv rid room hroom
      | some room0 =>
        obtain ⟨hlen0, hsc0⟩ := hinv rid' room0 hr
        by_cases hl4 : room0.players.length < 4
        · cases hsc : dictLookup rid' s.player_scores with
          | none => exact absurd hsc hsc0
          | some scores =>
            have hJ : (join_room rid' pid' nm s).1 =
                { rooms := dictSet rid' { room0 with
                    players := room0.players ++ [{ id := pid', name := nm }] } s.rooms,
                  player_scores := dictSet rid' (dictSet pid' 0 scores) s.player_scores } := by
              simp [join_room, hr, hl4, hsc]
            rw [hJ] at hroom ⊢
            by_cases hrr : rid = rid'
            · subst hrr
              rw [dictLookup_dictSet_self] at hroom
              have hrm := (Option.some_inj.mp hroom).symm
              constructor
              · rw [hrm]
                simp
                omega
              · rw [dictLookup_dictSet_self]
                simp
            · rw [dictLookup_dictSet_ne hrr] at hroom
              obtain ⟨hlen, hsc2⟩ := hinv rid room hroom
              refine ⟨hlen, ?_⟩
              rw [dictLookup_dictSet_ne hrr]
              exact hsc2
        · have hJ : (join_room rid' pid' nm s).1 =
              { s with rooms := dictSet rid' { room0 with
                  waitlist := room0.waitlist ++ [{ id := pid', name := nm }] } s.rooms } := by
            simp [join_room, hr, hl4]
          rw [hJ] at hroom ⊢
          by_cases hrr : rid = rid'
          · subst hrr
            rw [dictLookup_dictSet_self] at hroom
            have hrm := (Option.some_inj.mp hroom).symm
            constructor
            · rw [hrm]
              simpa using hlen0
            · simpa using hsc0
          · rw [dictLookup_dictSet_ne hrr] at hroom
            exact hinv rid room hroom
    | listRooms => exact hinv
    | listPlayers rid2 =>
      have h := get_players_fst rid2 s
      simp only [applyOp]
      rw [h]
      exact hinv
    | assign rid2 sh =>
      intro rid room hroom
      simp only [applyOp] at hroom ⊢
      cases hr : dictLookup rid2 s.rooms with
      | none =>
        have hA : (assign_roles rid2 sh s).1 = s := by simp [assign_roles, hr]
        rw [hA] at hroom ⊢
        exact hinv rid room hroom
      | some room0 =>
        by_cases hl4 : room0.players.length < 4
        · have hA : (assign_roles rid2 sh s).1 = s := by simp [assign_roles, hr, hl4]
          rw [hA] at hroom ⊢
          exact hinv rid room hroom
        · cases hal : assignList sh room0.players with
          | none =>
            have hA : (assign_roles rid2 sh s).1 = s := by simp [assign_roles, hr, hl4, hal]
            rw [hA] at hroom ⊢
            exact hinv rid room hroom
          | some ps2 =>
            have hA : (assign_roles rid2 sh s).1 =
                { s with rooms := dictSet rid2 { room0 with players := ps2, roles_assigned := true } s.rooms } := by
              simp [assign_roles, hr, hl4, hal]
            rw [hA] at hroom ⊢
            obtain ⟨hlen0, hsc0⟩ := hinv rid2 room0 hr
            by_cases hrr : rid = rid2
            · subst hrr
              rw [dictLookup_dictSet_self] at hroom
              have hrm := (Option.some_inj.mp hroom).symm
              constructor
              · rw [hrm]
                simpa [assignList_length room0.players sh ps2 hal] using hlen0
              · simpa using hsc0
            · rw [dictLookup_dictSet_ne hrr] at hroom
              exact hinv rid room hroom
    | reset rid2 =>
      intro rid room hroom
      simp only [applyOp] at hroom ⊢
      cases hr : dictLookup rid2 s.rooms with
      | none =>
        have hA : (reset_round rid2 s).1 = s := by simp [reset_round, hr]
        rw [hA] at hroom ⊢
        exact hinv rid room hroom
      | some room0 =>
        have hA : (reset_round rid2 s).1 =
            { s with rooms := dictSet rid2 { room0 with
                players := room0.players.map (fun p => { p with role := none, points := 0 }),
                roles_assigned := false, mantri_guess := none,
                round_complete := false } s.rooms } := by
          simp [reset_round, hr]
        rw [hA] at hroom ⊢
        obtain ⟨hlen0, hsc0⟩ := hinv rid2 room0 hr
        by_cases hrr : rid = rid2
        · subst hrr
          rw [dictLookup_dictSet_self] at hroom
          have hrm := (Option.some_inj.mp hroom).symm
          constructor
          · rw [hrm]
            simpa using hlen0
          · simpa using hsc0
        · rw [dictLookup_dictSet_ne hrr] at hroom
          exact hinv rid room hroom
    | myRole rid2 pid2 =>
      have h := get_my_role_fst rid2 pid2 s
      simp only [applyOp]
      rw [h]
      exact hinv
    | guess rid2 gid2 mid2 =>
      intro rid room hroom
      simp only [applyOp] at hroom ⊢
      cases hr : dictLookup rid2 s.rooms with
      | none =>
        have hA : (submit_guess rid2 gid2 mid2 s).1 = s := by simp [submit_guess, hr]
        rw [hA] at hroom ⊢
        exact hinv rid room hroom
      | some room0 =>
        cases hm : findPlayer mid2 room0.players with
        | none =>
          have hA : (submit_guess rid2 gid2 mid2 s).1 = s := by simp [submit_guess, hr, hm]
          rw [hA] at hroom ⊢
          exact hinv rid room hroom
        | some mantri =>
          by_cases hro : mantri.role = some "Mantri"
          · have hA : (submit_guess rid2 gid2 mid2 s).1 =
                { s with rooms := dictSet rid2 { room0 with mantri_guess := some gid2 } s.rooms } := by
              simp [submit_guess, hr, hm, hro]
            rw [hA] at hroom ⊢
            obtain ⟨hlen0, hsc0⟩ := hinv rid2 room0 hr
            by_cases hrr : rid = rid2
            · subst hrr
              rw [dictLookup_dictSet_self] at hroom
              have hrm := (Option.some_inj.mp hroom).symm
              constructor
              · rw [hrm]
                simpa using hlen0
              · simpa using hsc0
            · rw [dictLookup_dictSet_ne hrr] at hroom
              exact hinv rid room hroom
          · have hA : (submit_guess rid2 gid2 mid2 s).1 = s := by
              simp [submit_guess, hr, hm, hro]
            rw [hA] at hroom ⊢
            exact hinv rid room hroom
    | result rid2 =>
      intro rid room hroom
      simp only [applyOp] at hroom ⊢
      rcases get_result_shape rid2 s with hS | ⟨room0, guessed, chor, rc, hr0, hS⟩
      · rw [hS] at hroom ⊢
        exact hinv rid room hroom
      · rw [hS] at hroom ⊢
        obtain ⟨hlen0, hsc0⟩ := hinv rid2 room0 hr0
        by_cases hrr : rid = rid2
        · subst hrr
          rw [dictLookup_dictSet_self] at hroom
          have hrm := (Option.some_inj.mp hroom).symm
          constructor
          · rw [hrm]
            simp only
            rw [resultLoop_players_length]
            exact hlen0
          · simp only
            exact resultLoop_scores_isSome guessed chor rid room0.players
              s.player_scores rid hsc0
        · rw [dictLookup_dictSet_ne hrr] at hroom
          obtain ⟨hlen, hsc⟩ := hinv rid room hroom
          refine ⟨hlen, ?_⟩
          simp only
          exact resultLoop_scores_isSome guessed chor rid2 room0.players
            s.player_scores rid hsc
    | leaderboard rid2 =>
      have h := get_leaderboard_fst rid2 s
      simp only [applyOp]
      rw [h]
      exact hinv

lemma storeInv_reachable {s : ServerState} (h : Reachable s) : StoreInv s := by
  induction h with
  | refl => exact storeInv_init
  | tail hst hstep ih => exact storeInv_step hstep ih

lemma step_scoreEntry_mono {s t : ServerState} (hstep : Step s t)
    (rid pid : String) (v : Int) (hv : scoreEntry s rid pid = some v) :
    ∃ v2, scoreEntry t rid pid = some v2 ∧ v ≤ v2 := by
  cases hstep with
  | mk op s hfr =>
    cases op with
    | create rid' pid' nm =>
      obtain ⟨h1, h2, h3⟩ := hfr
      exact ⟨v, scoreEntry_create rid' pid' nm s h2 rid pid v hv, le_refl v⟩
    | join rid' pid' nm =>
      exact ⟨v, scoreEntry_join rid' pid' nm s hfr rid pid v hv, le_refl v⟩
    | listRooms => exact ⟨v, hv, le_refl v⟩
    | listPlayers rid2 =>
      refine ⟨v, ?_, le_refl v⟩
      simp only [applyOp]
      rw [get_players_fst]
      exact hv
    | assign rid2 sh =>
      refine ⟨v, ?_, le_refl v⟩
      simp only [applyOp]
      rw [scoreEntry_congr (assign_roles_player_scores rid2 sh s)]
      exact hv
    | reset rid2 =>
      refine ⟨v, ?_, le_refl v⟩
      simp only [applyOp]
      rw [scoreEntry_congr (reset_round_player_scores rid2 s)]
      exact hv
    | myRole rid2 pid2 =>
      refine ⟨v, ?_, le_refl v⟩
      simp only [applyOp]
      rw [get_my_role_fst]
      exact hv
    | guess rid2 gid2 mid2 =>
      refine ⟨v, ?_, le_refl v⟩
      simp only [applyOp]
      rw [scoreEntry_congr (submit_guess_player_scores rid2 gid2 mid2 s)]
      exact hv
    | result rid2 =>
      simp only [applyOp]
      exact scoreEntry_result_mono rid2 s rid pid v hv
    | leaderboard rid2 =>
      refine ⟨v, ?_, le_refl v⟩
      simp only [applyOp]
      rw [get_leaderboard_fst]
      exact hv

lemma steps_scoreEntry_mono {s t : ServerState} (h : Steps s t) :
    ∀ rid pid v, scoreEntry s rid pid = some v →
    ∃ v2, scoreEntry t rid pid = some v2 ∧ v ≤ v2 := by
  induction h with
  | refl => exact fun rid pid v hv => ⟨v, hv, le_refl v⟩
  | tail hst hstep ih =>
    intro rid pid v hv
    obtain ⟨v1, hv1, hle1⟩ := ih rid pid v hv
    obtain ⟨v2, hv2, hle2⟩ := step_scoreEntry_mono hstep rid pid v1 hv1
    exact ⟨v2, hv2, le_trans hle1 hle2⟩

/-- C4: along any sequence of operations (with fresh uuids, as the
service mints them), no cumulative score entry ever decreases;
ResetRound leaves the whole score table untouched, and a join that
lands a player in the active roster creates that player's entry at 0. -/
theorem C4_cumulative_scores_monotone :
    (∀ s t : ServerState, Steps s t → ∀ rid pid v, scoreEntry s rid pid = some v →
      ∃ v2, scoreEntry t rid pid = some v2 ∧ v ≤ v2) ∧
    (∀ rid : String, ∀ s : ServerState,
      (reset_round rid s).1.player_scores = s.player_scores) ∧
    (∀ rid pid nm : String, ∀ s t : ServerState, ∀ r : String,
      join_room rid pid nm s = (t, Except.ok (r, Placement.joined)) →
      scoreEntry t rid pid = some 0) := by
  refine ⟨fun s t h => steps_scoreEntry_mono h, reset_round_player_scores, ?_⟩
  intro rid pid nm s t r h
  cases hr : dictLookup rid s.rooms with
  | none =>
    rw [join_room] at h
    simp only [hr] at h
    simp at h
  | some room =>
    rw [join_room] at h
    simp only [hr] at h
    by_cases hl4 : room.players.length < 4
    · rw [if_pos hl4] at h
      cases hsc : dictLookup rid s.player_scores with
      | none =>
        simp only [hsc] at h
        simp at h
      | some scores =>
        simp only [hsc] at h
        have ht : t = { rooms := dictSet rid { room with players := room.players ++ [{ id := pid, name := nm }] } s.rooms, player_scores := dictSet rid (dictSet pid 0 scores) s.player_scores } := by
          have := congrArg Prod.fst h
          simp only at this
          rw [← this]
        rw [ht]
        have hl : dictLookup rid (dictSet rid (dictSet pid 0 scores) s.player_scores) =
            some (dictSet pid 0 scores) := dictLookup_dictSet_self _ _ _
        have : scoreEntry { rooms := dictSet rid { room with players := room.players ++ [{ id := pid, name := nm }] } s.rooms, player_scores := dictSet rid (dictSet pid 0 scores) s.player_scores } rid pid = dictLookup pid (dictSet pid 0 scores) := by
          exact scoreEntry_eq hl pid
        rw [this]
        exact dictLookup_dictSet_self _ _ _
    · rw [if_neg hl4] at h
      simp at h

/-- C4 witness: a real ComputeResult step from the concrete guessed
room keeps player "pa"'s entry (initially 0) at a value at least 0. -/
theorem C4_cumulative_scores_monotone_witness :
    ∃ v2, scoreEntry (applyOp (Op.result "r") (cState "pc")) "r" "pa" = some v2 ∧
      (0 : Int) ≤ v2 :=
  C4_cumulative_scores_monotone.1 (cState "pc") (applyOp (Op.result "r") (cState "pc"))
    (Steps.tail (Steps.refl (cState "pc"))
      (Step.mk (Op.result "r") (cState "pc") trivial))
    "r" "pa" 0 rfl

lemma wState_reachable : Reachable wState :=
  Steps.tail (Steps.tail (Steps.tail (Steps.tail (Steps.refl initState)
    (Step.mk (Op.create "w" "pa" "A") initState ⟨rfl, rfl, by decide⟩))
    (Step.mk (Op.join "w" "pb" "B") wStep1 rfl))
    (Step.mk (Op.join "w" "pc" "C") wStep2 rfl))
    (Step.mk (Op.join "w" "pd" "D") wStep3 rfl)

/-- C6: in every reachable store a known room holds at most 4 active
players; joining a full room appends to the waitlist, returns
"waitlisted", and changes neither the active roster nor the score
table, while joining a room with a free slot appends to the roster,
returns "joined", and creates the new player's cumulative entry at 0. -/
theorem C6_join_capacity (s : ServerState) (rid pid nm : String) (room : Room)
    (hreach : Reachable s) (hroom : dictLookup rid s.rooms = some room) :
    room.players.length ≤ 4 ∧
    (room.players.length = 4 →
      (join_room rid pid nm s).2 = Except.ok (pid, Placement.waitlisted) ∧
      (join_room rid pid nm s).1.player_scores = s.player_scores ∧
      ∃ room1, dictLookup rid (join_room rid pid nm s).1.rooms = some room1 ∧
        room1.players = room.players ∧
        room1.waitlist = room.waitlist ++ [{ id := pid, name := nm }]) ∧
    (room.players.length < 4 →
      (join_room rid pid nm s).2 = Except.ok (pid, Placement.joined) ∧
      scoreEntry (join_room rid pid nm s).1 rid pid = some 0 ∧
      ∃ room1, dictLookup rid (join_room rid pid nm s).1.rooms = some room1 ∧
        room1.players = room.players ++ [{ id := pid, name := nm }] ∧
        room1.waitlist = room.waitlist) := by
  obtain ⟨hlen, hsc⟩ := storeInv_reachable hreach rid room hroom
  refine ⟨hlen, ?_, ?_⟩
  · intro h4
    have hl4 : ¬ room.players.length < 4 := by omega
    have hJ : join_room rid pid nm s =
        ({ s with rooms := dictSet rid { room with waitlist := room.waitlist ++ [{ id := pid, name := nm }] } s.rooms },
         Except.ok (pid, Placement.waitlisted)) := by
      rw [join_room]
      simp only [hroom]
      rw [if_neg hl4]
    rw [hJ]
    exact ⟨rfl, rfl, _, dictLookup_dictSet_self _ _ _, rfl, rfl⟩
  · intro hl4
    cases hscv : dictLookup rid s.player_scores with
    | none => exact absurd hscv hsc
    | some scores =>
      have hJ : join_room rid pid nm s =
          ({ rooms := dictSet rid { room with players := room.players ++ [{ id := pid, name := nm }] } s.rooms, player_scores := dictSet rid (dictSet pid 0 scores) s.player_scores },
           Except.ok (pid, Placement.joined)) := by
        rw [join_room]
        simp only [hroom]
        rw [if_pos hl4]
        simp only [hscv]
      rw [hJ]
      refine ⟨rfl, ?_, _, dictLookup_dictSet_self _ _ _, rfl, rfl⟩
      rw [scoreEntry_eq (dictLookup_dictSet_self _ _ _) pid]
      exact dictLookup_dictSet_self _ _ _

/-- C6 witness: the concrete reachable full room "w" rejects a fifth
active join, waitlisting the newcomer. -/
theorem C6_join_capacity_witness :
    wRoom.players.length ≤ 4 ∧
    (wRoom.players.length = 4 →
      (join_room "w" "pe" "E" wState).2 = Except.ok ("pe", Placement.waitlisted) ∧
      (join_room "w" "pe" "E" wState).1.player_scores = wState.player_scores ∧
      ∃ room1, dictLookup "w" (join_room "w" "pe" "E" wState).1.rooms = some room1 ∧
        room1.players = wRoom.players ∧
        room1.waitlist = wRoom.waitlist ++ [{ id := "pe", name := "E" }]) ∧
    (wRoom.players.length < 4 →
      (join_room "w" "pe" "E" wState).2 = Except.ok ("pe", Placement.joined) ∧
      scoreEntry (join_room "w" "pe" "E" wState).1 "w" "pe" = some 0 ∧
      ∃ room1, dictLookup "w" (join_room "w" "pe" "E" wState).1.rooms = some room1 ∧
        room1.players = wRoom.players ++ [{ id := "pe", name := "E" }] ∧
        room1.waitlist = wRoom.waitlist) :=
  C6_join_capacity wState "w" "pe" "E" wRoom wState_reachable rfl

/-- C7: in every reachable store, AssignRoles fails with NotFound
exactly when the room id is unknown; for a known room it fails with
InvalidState ("Need 4 players to assign roles") exactly when the
active roster size differs from 4; and any failure leaves the store
unchanged. -/
theorem C7_assign_roles_errors (s : ServerState) (rid : String)
    (shuffled : List String) (hreach : Reachable s) (hperm : shuffled.Perm ROLES) :
    ((assign_roles rid shuffled s).2 =
        Except.error (ApiError.notFound "Room not found") ↔
      dictLookup rid s.rooms = none) ∧
    (∀ room, dictLookup rid s.rooms = some room →
      ((assign_roles rid shuffled s).2 =
          Except.error (ApiError.invalidState "Need 4 players to assign roles") ↔
        room.players.length ≠ 4)) ∧
    (∀ e, (assign_roles rid shuffled s).2 = Except.error e →
      (assign_roles rid shuffled s).1 = s) := by
  cases hr : dictLookup rid s.rooms with
  | none =>
    have hA : assign_roles rid shuffled s =
        (s, Except.error (ApiError.notFound "Room not found")) := by
      rw [assign_roles]
      simp only [hr]
    rw [hA]
    refine ⟨by simp, ?_, fun e _ => rfl⟩
    intro room h
    exact Option.noConfusion h
  | some room =>
    obtain ⟨hlen, _⟩ := storeInv_reachable hreach rid room hr
    by_cases hlt : room.players.length < 4
    · have hA : assign_roles rid shuffled s =
          (s, Except.error (ApiError.invalidState "Need 4 players to assign roles")) := by
        rw [assign_roles]
        simp only [hr]
        rw [if_pos hlt]
      rw [hA]
      refine ⟨by simp, ?_, fun e _ => rfl⟩
      intro room2 h2
      obtain rfl := Option.some_inj.mp h2
      constructor
      · intro _
        omega
      · intro _
        rfl
    · have h4 : room.players.length = 4 := by omega
      have hslen : shuffled.length = 4 := by
        rw [hperm.length_eq]
        rfl
      have hle : room.players.length ≤ shuffled.length := by omega
      obtain ⟨ps2, hassign, _, _, _⟩ := assignList_spec room.players shuffled hle
      have hA : assign_roles rid shuffled s =
          ({ s with rooms := dictSet rid { room with players := ps2, roles_assigned := true } s.rooms },
           Except.ok "Roles assigned") := by
        rw [assign_roles]
        simp only [hr]
        rw [if_neg hlt]
        simp only [hassign]
      rw [hA]
      refine ⟨by simp, ?_, ?_⟩
      · intro room2 h2
        obtain rfl := Option.some_inj.mp h2
        constructor
        · intro hh
          exact Except.noConfusion hh
        · intro hh
          exact absurd h4 hh
      · intro e he
        exact Except.noConfusion he

/-- C7 witness: on the concrete reachable full room "w", AssignRoles
neither returns NotFound nor InvalidState, and the two equivalences
hold for the known room. -/
theorem C7_assign_roles_errors_witness :
    ((assign_roles "w" ROLES wState).2 =
        Except.error (ApiError.notFound "Room not found") ↔
      dictLookup "w" wState.rooms = none) ∧
    (∀ room, dictLookup "w" wState.rooms = some room →
      ((assign_roles "w" ROLES wState).2 =
          Except.error (ApiError.invalidState "Need 4 players to assign roles") ↔
        room.players.length ≠ 4)) ∧
    (∀ e, (assign_roles "w" ROLES wState).2 = Except.error e →
      (assign_roles "w" ROLES wState).1 = wState) :=
  C7_assign_roles_errors wState "w" ROLES wState_reachable (List.Perm.refl ROLES)
